import Mathlib

/-!
Verification development for the Photon Javascript SDK client bundled with the
photon.custom-authentication repository
(`src-client/facebook-js/Photon/Photon-Javascript_SDK.js`).
The definitions below are a shallow embedding of the peer framing layer
(`PhotonPeer._encode`, `_decode`, `_send`, `sendOperation`, `resetKeepAlive`,
`_parseMessageValuesArrayToJSON`), the Lite session layer (`LitePeer.join`), and
the LoadBalancing workflow client (state table, `connect`, room-list
reconciliation, `RoomInfo._updateFromProps`, game-peer join/create response
listeners). Machine strings are modelled as Lean strings (sequences of
characters), JS dynamic values as the inductive `JSVal`, thrown JS errors as
`Except.error`, and the single-threaded timer/event loop as an explicit event
list.
-/

namespace PhotonModel

/-- A JavaScript value, restricted to the fragment the SDK's data paths use:
strings, (integral) numbers, NaN, booleans, null, undefined, arrays and plain
objects. Objects are insertion-ordered string-keyed field lists, as produced by
JSON parsing. Non-integral doubles are not modelled. -/
inductive JSVal where
  | vstr (s : String)
  | vnum (n : Int)
  | vnan
  | vbool (b : Bool)
  | vnull
  | vundefined
  | varr (elems : List JSVal)
  | vobj (fields : List (String × JSVal))
deriving Repr

/-- JavaScript truthiness of a value (`if (v)`). -/
def jsTruthy : JSVal → Bool
  | .vstr s => s ≠ ""
  | .vnum n => n ≠ 0
  | .vnan => false
  | .vbool b => b
  | .vnull => false
  | .vundefined => false
  | .varr _ => true
  | .vobj _ => true

mutual

/-- `Array.prototype.toString`: comma-joined element coercions. -/
def jsArrJoin : List JSVal → String
  | [] => ""
  | [x] => jsElemString x
  | x :: y :: rest => jsElemString x ++ "," ++ jsArrJoin (y :: rest)
termination_by structural v => v

/-- Element coercion used by the array join: null/undefined elements become
empty, all other values coerce as `String(v)`. -/
def jsElemString : JSVal → String
  | .vnull => ""
  | .vundefined => ""
  | .vstr s => s
  | .vnum n => toString n
  | .vnan => "NaN"
  | .vbool b => if b then "true" else "false"
  | .varr elems => jsArrJoin elems
  | .vobj _ => "[object Object]"
termination_by structural v => v

end

/-- JavaScript string coercion `v + ""` / `String(v)` on the embedded fragment.
Arrays join their elements with commas (null/undefined elements become empty),
plain objects print as "[object Object]". -/
def jsToString : JSVal → String
  | .vstr s => s
  | .vnum n => toString n
  | .vnan => "NaN"
  | .vbool b => if b then "true" else "false"
  | .vnull => "null"
  | .vundefined => "undefined"
  | .varr elems => jsArrJoin elems
  | .vobj _ => "[object Object]"

/-- `Exitgames.Common.Util.isArray` (`Object.prototype.toString.call(obj) ===
"[object Array]"`). -/
def jsIsArray : JSVal → Bool
  | .varr _ => true
  | _ => false

/-- `typeof v === "object"` (true for plain objects, arrays and null). -/
def jsTypeofObject : JSVal → Bool
  | .vobj _ => true
  | .varr _ => true
  | .vnull => true
  | _ => false

/-- JS strict equality `a === b` on the embedded fragment. Primitive values
compare by value; objects and arrays compare by reference, and two values
arriving in separate server messages are never the same reference, so they
compare unequal here. NaN is not equal to itself. -/
def jsStrictEq : JSVal → JSVal → Bool
  | .vstr a, .vstr b => a = b
  | .vnum a, .vnum b => a = b
  | .vbool a, .vbool b => a = b
  | .vnull, .vnull => true
  | .vundefined, .vundefined => true
  | _, _ => false

/-- JS object property assignment `obj[key] = v` on an insertion-ordered field
list: replaces the value of an existing key in place, otherwise appends the new
key at the end. -/
def objSet {α : Type} (fields : List (String × α)) (key : String) (v : α) :
    List (String × α) :=
  match fields with
  | [] => [(key, v)]
  | (k, w) :: rest =>
    if k = key then (k, v) :: rest else (k, w) :: objSet rest key v

/-- JS object property read `obj[key]` on a field list: undefined when the key
is missing. -/
def objGet (fields : List (String × JSVal)) (key : String) : JSVal :=
  match fields.find? (fun kv => kv.1 = key) with
  | some kv => kv.2
  | none => .vundefined

/-- `obj.hasOwnProperty(key)` on a field list. -/
def objHas (fields : List (String × α)) (key : String) : Bool :=
  (fields.find? (fun kv => kv.1 = key)).isSome

/-- The numeric value of an ECMAScript array-index key, if the string is one:
a canonical decimal numeral (no leading zero except "0" itself) denoting an
integer below 2^32 - 1. -/
def jsArrayIndexVal (k : String) : Option Nat :=
  match k.data with
  | [] => none
  | c :: cs =>
    if (c :: cs).all Char.isDigit ∧ (c = '0' → cs = []) then
      let n := (c :: cs).foldl (fun a ch => 10 * a + (ch.toNat - 48)) 0
      if n < 4294967295 then some n else none
    else none

/-- The string is an ECMAScript array-index key. -/
def jsIsIndexKey (k : String) : Bool := (jsArrayIndexVal k).isSome

/-- ECMAScript own-property order (OrdinaryOwnPropertyKeys), which `for-in`
enumeration and JSON serialization follow: array-index keys in ascending
numeric order first, then the remaining string keys in property creation
order. -/
def jsEnumPairs (fields : List (String × JSVal)) : List (String × JSVal) :=
  (fields.filter (fun kv => jsIsIndexKey kv.1)).insertionSort
      (fun a b => (jsArrayIndexVal a.1).getD 0 ≤ (jsArrayIndexVal b.1).getD 0)
    ++ fields.filter (fun kv => !jsIsIndexKey kv.1)

/-- The key/value pairs visited by a JS `for (var k in v)` loop: object fields
in ECMAScript own-property order, array and string elements under their
stringified indices, nothing for primitives. -/
def forInPairs : JSVal → List (String × JSVal)
  | .vobj fields => jsEnumPairs fields
  | .varr elems => elems.enum.map (fun p => (toString p.1, p.2))
  | .vstr s => s.data.enum.map (fun p => (toString p.1, .vstr (String.mk [p.2])))
  | _ => []

/-- JS property read `v[key]` on an arbitrary value (objects by key, arrays by
stringified index, undefined otherwise). -/
def objGetJS (v : JSVal) (key : String) : JSVal :=
  match (forInPairs v).find? (fun kv => kv.1 = key) with
  | some kv => kv.2
  | none => .vundefined

/-- `v.hasOwnProperty(key)` on an arbitrary value. -/
def objHasJS (v : JSVal) (key : String) : Bool :=
  ((forInPairs v).find? (fun kv => kv.1 = key)).isSome

/-! ## JS number/string conversions (`parseInt`, `Number`, decimal printing) -/

/-- The whitespace characters JS number conversions skip or coerce to zero
(ASCII subset; exotic Unicode space characters are not modelled). -/
def jsWhitespaceChars : List Char := [' ', '\t', '\n', '\r', '\x0b', '\x0c']

/-- `Number(s)` for a single-character string `s`, as used by the decoder's
digit scan: an ASCII digit yields its value, a whitespace character yields 0,
anything else is NaN (`none`). -/
def jsCharNum (c : Char) : Option Nat :=
  if c.isDigit then some (c.toNat - 48)
  else if c ∈ jsWhitespaceChars then some 0
  else none

/-- Numeric value of a most-significant-first list of decimal digit values. -/
def digitsVal (ds : List Nat) : Nat :=
  ds.foldl (fun a d => 10 * a + d) 0

/-- Decimal digit values of a positive natural number, most significant first;
`fuel` bounds the recursion depth (the number itself is always enough). -/
def natDecDigitsAux : Nat → Nat → List Nat
  | 0, _ => []
  | _ + 1, 0 => []
  | fuel + 1, n => natDecDigitsAux fuel (n / 10) ++ [n % 10]

/-- Decimal digit values of a natural number, most significant first
(`[0]` for zero, mirroring JS `String(0) = "0"`). -/
def natDecDigits (n : Nat) : List Nat :=
  if n = 0 then [0] else natDecDigitsAux n n

/-- Decimal character representation of a natural number, most significant
digit first: the output of JS number-to-string for array lengths. -/
def natDecChars (n : Nat) : List Char :=
  (natDecDigits n).map Nat.digitChar

/-- Value of a hexadecimal digit character, if any. -/
def hexDigitVal (c : Char) : Option Nat :=
  if c.isDigit then some (c.toNat - 48)
  else if 'a' ≤ c ∧ c ≤ 'f' then some (c.toNat - 97 + 10)
  else if 'A' ≤ c ∧ c ≤ 'F' then some (c.toNat - 65 + 10)
  else none

/-- JS `parseInt(s)` with automatic radix detection (decimal, or hexadecimal
after a "0x"/"0X" prefix): skip leading whitespace, an optional sign, then the
longest digit prefix; `none` is NaN. Results are exact integers; the double
rounding JS applies to astronomically large digit strings is not modelled (the
keys this development evaluates the function on are far below that range). -/
def jsParseInt (s : String) : Option Int :=
  let cs := s.data.dropWhile (fun c => c ∈ jsWhitespaceChars)
  let signed : Bool × List Char :=
    match cs with
    | '-' :: rest => (true, rest)
    | '+' :: rest => (false, rest)
    | _ => (false, cs)
  let neg := signed.1
  let body := signed.2
  let digits : Option (Nat × List Nat) :=
    match body with
    | '0' :: x :: rest =>
      if x = 'x' ∨ x = 'X' then
        let hs := (rest.map hexDigitVal).takeWhile Option.isSome
        if hs = [] then none else some (16, hs.filterMap id)
      else
        some (10, ((body.map jsDecDigitVal).takeWhile Option.isSome).filterMap id)
    | _ =>
      let ds := ((body.map jsDecDigitVal).takeWhile Option.isSome).filterMap id
      if ds = [] then none else some (10, ds)
  match digits with
  | none => none
  | some (base, ds) =>
    let v : Nat := ds.foldl (fun a d => base * a + d) 0
    some (if neg then -(v : Int) else (v : Int))
where
  /-- Value of a decimal digit character, if any. -/
  jsDecDigitVal (c : Char) : Option Nat :=
    if c.isDigit then some (c.toNat - 48) else none

/-- `parseInt(k).toString()`: the left-hand side of the numeric-key test in
`RoomInfo._updateFromProps` (`parseInt(k).toString() != k`). -/
def jsParseIntToString (k : String) : String :=
  match jsParseInt k with
  | none => "NaN"
  | some v => toString v

/-- `parseInt(k)` as a JS value (NaN when unparsable), as used for actor
numbers parsed from object keys. -/
def jsParseIntJS (k : String) : JSVal :=
  match jsParseInt k with
  | none => .vnan
  | some v => .vnum v

/-! ## JSON serialization (`JSON.stringify` on the embedded fragment) -/

/-- One hexadecimal digit character. -/
def hexChar (n : Nat) : Char :=
  if n < 10 then Char.ofNat (48 + n) else Char.ofNat (97 + n - 10)

/-- JSON escaping of one string character. -/
def jsonEscapeChar (c : Char) : String :=
  if c = '"' then "\\\""
  else if c = '\\' then "\\\\"
  else if c = '\n' then "\\n"
  else if c = '\r' then "\\r"
  else if c = '\t' then "\\t"
  else if c = '\x08' then "\\b"
  else if c = '\x0c' then "\\f"
  else if c.toNat < 32 then
    "\\u00" ++ String.mk [hexChar (c.toNat / 16), hexChar (c.toNat % 16)]
  else String.mk [c]

/-- JSON representation of a string literal. -/
def jsonQuote (s : String) : String :=
  "\"" ++ String.join (s.data.map jsonEscapeChar) ++ "\""

/-- The value is literally the undefined value. -/
def jsUndefB : JSVal → Bool
  | .vundefined => true
  | _ => false

mutual

/-- Structural size of a JS value (bounds nesting depth for serialization). -/
def jsSize : JSVal → Nat
  | .varr elems => jsSizeList elems + 1
  | .vobj fields => jsSizeFields fields + 1
  | _ => 1
termination_by structural v => v

/-- Structural size of a value list. -/
def jsSizeList : List JSVal → Nat
  | [] => 0
  | v :: vs => jsSize v + jsSizeList vs + 1
termination_by structural v => v

/-- Structural size of a field list. -/
def jsSizeFields : List (String × JSVal) → Nat
  | [] => 0
  | (_, v) :: rest => jsSize v + jsSizeFields rest + 1
termination_by structural v => v

end

/-- `JSON.stringify` of a value appearing inside an array or object, with
`fuel` bounding the nesting depth: undefined and NaN serialize as null in
array position; object fields are enumerated in ECMAScript own-property order
(array-index keys ascending numerically first) and undefined-valued fields
are dropped. Each nesting level strictly decreases the serialized value's
size and the enumeration only permutes an object's own fields, so the
size-based fuel of the `jsonStringify` wrapper is never exhausted. -/
def jsonStringifyF : Nat → JSVal → String
  | _, .vstr s => jsonQuote s
  | _, .vnum n => toString n
  | _, .vnan => "null"
  | _, .vbool b => if b then "true" else "false"
  | _, .vnull => "null"
  | _, .vundefined => "null"
  | 0, .varr _ => ""
  | 0, .vobj _ => ""
  | fuel + 1, .varr elems =>
    "[" ++ String.intercalate "," (elems.map (jsonStringifyF fuel)) ++ "]"
  | fuel + 1, .vobj fields =>
    "\x7b" ++ String.intercalate ","
      (((jsEnumPairs fields).filter (fun kv => !jsUndefB kv.2)).map
        (fun kv => jsonQuote kv.1 ++ ":" ++ jsonStringifyF fuel kv.2)) ++ "\x7d"

/-- `JSON.stringify` on the embedded fragment. -/
def jsonStringify (v : JSVal) : String := jsonStringifyF (jsSize v) v

/-! ## PhotonPeer message framing (`_stringify`, `_encode`, `_decode`) -/

/-- `PhotonPeer._stringify`: plain objects become tagged JSON
(`"~j~" + JSON.stringify(message)`), everything else coerces with `String`. -/
def stringifyMsg : JSVal → String
  | .vobj fields => "~j~" ++ jsonStringify (.vobj fields)
  | v => jsToString v

/-- The message text `PhotonPeer._encode` frames for one message: empty for
null/undefined, `_stringify` otherwise. -/
def encodeMsgStr : JSVal → String
  | .vnull => ""
  | .vundefined => ""
  | v => stringifyMsg v

/-- The frame marker `PhotonPeer._frame` (`"~m~"`). -/
def frameMarker : List Char := ['~', 'm', '~']

/-- The frame emitted for one message:
`marker ++ decimal length ++ marker ++ message`. -/
def frameOf (s : List Char) : List Char :=
  frameMarker ++ natDecChars s.length ++ frameMarker ++ s

/-- `PhotonPeer._encode` on a list of messages (the non-array argument is
wrapped into a one-element list by the source before this loop). -/
def pEncode (messages : List JSVal) : List Char :=
  (messages.map (fun m => frameOf (encodeMsgStr m).data)).flatten

/-- The decoder's digit scan: the longest prefix of characters that JS
`Number` coercion accepts as single digits (ASCII digits, plus whitespace
characters which coerce to 0), together with whether the scan stopped at a
non-digit character (`true`) or ran off the end of the input (`false`). -/
def scanDigits : List Char → List Nat × Bool
  | [] => ([], false)
  | c :: cs =>
    match jsCharNum c with
    | some d =>
      let r := scanDigits cs
      (d :: r.1, r.2)
    | none => ([], true)

/-- The frame-consuming loop of `PhotonPeer._decode`. `fuel` bounds the number
of loop iterations; every iteration consumes at least the three marker
characters, so any fuel beyond the input length is inexhaustible. Per
iteration: stop unless the input starts with the marker; drop the marker; scan
digits; on a digit-scan break skip the digits plus a second marker; slice
`number` characters as one message; continue while input remains. -/
def decodeLoop : Nat → List Char → List (List Char)
  | 0, _ => []
  | fuel + 1, data =>
    if data.take 3 = frameMarker then
      let rest := data.drop 3
      let scanned := scanDigits rest
      let n := digitsVal scanned.1
      let after := if scanned.2 then rest.drop (scanned.1.length + 3) else rest
      let msg := after.take n
      let data' := after.drop n
      if data' = [] then [msg] else msg :: decodeLoop fuel data'
    else []

/-- `PhotonPeer._decode`: strip every NUL character, then run the frame loop. -/
def pDecode (data : List Char) : List (List Char) :=
  let newdata := data.filter (fun c => c ≠ '\x00')
  decodeLoop (newdata.length + 1) newdata

/-! ## PhotonPeer send pipeline and keep-alive
(`sendOperation`, `_send`, `resetKeepAlive`) -/

/-- The mutable `PhotonPeer` state the send/keep-alive claims touch. `now` is
the current clock (`Date.now()`), `keepAliveTimer` the due time of the pending
single-shot timer if one is armed, `sent` the frame strings handed to
`this._socket.send`, `sentMsgs` the corresponding unencoded messages, and
`pingsSent` the timestamps carried by the keep-alive pings actually sent. -/
structure PeerState where
  isConnected : Bool
  isClosing : Bool
  keepAliveTimeoutMs : Nat
  now : Nat
  keepAliveTimer : Option Nat
  sent : List (List Char)
  sentMsgs : List JSVal
  pingsSent : List Nat
deriving Repr

/-- `PhotonPeer.resetKeepAlive`: clear any pending timer
(`clearTimeout`), then arm a fresh single-shot timer of
`keepAliveTimeoutMs` only when that timeout is at least 1000. -/
def resetKeepAlive (p : PeerState) : PeerState :=
  { p with keepAliveTimer :=
      if p.keepAliveTimeoutMs ≥ 1000 then some (p.now + p.keepAliveTimeoutMs)
      else none }

/-- The internal keep-alive ping message
(`{ irq: 1, vals: [1, Date.now()] }`). -/
def pingMsg (t : Nat) : JSVal :=
  .vobj [("irq", .vnum 1), ("vals", .varr [.vnum 1, .vnum (t : Int)])]

/-- `PhotonPeer._send(data, checkConnected)`: when connected and not closing,
reset the keep-alive timer and hand the encoded frame to the socket; otherwise
throw unless `checkConnected` relaxes the check (in which case the message is
silently dropped). `pingStamp` is bookkeeping recording the timestamp when the
message being sent is a keep-alive ping. -/
def psSend (p : PeerState) (data : JSVal) (checkConnected : Bool)
    (pingStamp : Option Nat) : Except String PeerState :=
  if p.isConnected && !p.isClosing then
    .ok { resetKeepAlive p with
          sent := p.sent ++ [pEncode [data]]
          sentMsgs := p.sentMsgs ++ [data]
          pingsSent := p.pingsSent ++ pingStamp.toList }
  else if !checkConnected then
    .error "PhotonPeer[_send] - Operation failed, not connected"
  else
    .ok p

/-- The operation-request envelope `sendOperation` builds
(`{ req: code, vals: ... }`). -/
def opReqMsg (code : Int) (vals : List JSVal) : JSVal :=
  .vobj [("req", .vnum code), ("vals", .varr vals)]

/-- `PhotonPeer.sendOperation(code, data)`: array data is sent as the `vals`
list, absent data as an empty list, anything else throws an invalid-argument
error; the envelope goes through `_send` with the strict connection check. -/
def sendOperation (p : PeerState) (code : Int) (data : JSVal) :
    Except String PeerState :=
  match data with
  | .varr elems => psSend p (opReqMsg code elems) false none
  | .vundefined => psSend p (opReqMsg code []) false none
  | _ => .error "PhotonPeer[sendOperation] - Trying to send non array data"

/-- The keep-alive timer callback: send the ping with the relaxed connection
check (`_send({irq: 1, vals: [1, Date.now()]}, true)`), which never throws. -/
def fireKeepAlive (p : PeerState) : PeerState :=
  match psSend p (pingMsg p.now) true (some p.now) with
  | .ok p' => p'
  | .error _ => p

/-- One observable step of the peer's event loop: time advancing by one unit
(firing the armed timer at its due time) or the application performing a send
(which is a no-op when it throws). -/
inductive PeerEvent where
  | tick
  | appSend (data : JSVal)

/-- Event-loop step function. -/
def psStep (p : PeerState) : PeerEvent → PeerState
  | .tick =>
    let p' := { p with now := p.now + 1 }
    match p.keepAliveTimer with
    | some due =>
      if due ≤ p'.now then fireKeepAlive { p' with keepAliveTimer := none }
      else p'
    | none => p'
  | .appSend data =>
    match psSend p data false none with
    | .ok p' => p'
    | .error _ => p

/-- Run of the peer's event loop over an event list. -/
def psRun (p : PeerState) (evs : List PeerEvent) : PeerState :=
  evs.foldl psStep p

/-! ## `PhotonPeer._parseMessageValuesArrayToJSON` and its spec-side inverse -/

/-- The shift-two-at-a-time loop rebuilding a flat key/value array into an
object: each key is string-coerced and assigned in order. -/
def pairUpVals : List JSVal → List (String × JSVal) → List (String × JSVal)
  | k :: v :: rest, acc => pairUpVals rest (objSet acc (jsToString k) v)
  | _, acc => acc

/-- `PhotonPeer._parseMessageValuesArrayToJSON(vals)`: non-arrays yield an
empty object, odd-length arrays throw, even-length arrays are paired up. -/
def parseMessageValuesArrayToJSON (vals : JSVal) : Except String JSVal :=
  match vals with
  | .varr xs =>
    if xs.length % 2 = 0 then .ok (.vobj (pairUpVals xs []))
    else .error "PhotonPeer[_parseMessageValuesToJSON] - Received invalid values array"
  | _ => .ok (.vobj [])

/-- Spec-side pairing of a flat array (no object semantics): every element at
an even position becomes a string-coerced key for the element after it. -/
def zipPairs : List JSVal → List (String × JSVal)
  | k :: v :: rest => (jsToString k, v) :: zipPairs rest
  | _ => []

/-- Raw layout of a field list as a flat array alternating keys and values,
in list order. -/
def flattenPairsInOrder (fields : List (String × JSVal)) : List JSVal :=
  (fields.map (fun kv => [JSVal.vstr kv.1, kv.2])).flatten

/-- Spec-side inverse of the un-flattening: enumerate the mapping the way a
JS for-in loop enumerates the parsed object (array-index keys in ascending
numeric order first) and lay it back out as the flat array alternating keys
and values. -/
def flattenVals (fields : List (String × JSVal)) : List JSVal :=
  flattenPairsInOrder (jsEnumPairs fields)

/-- Every element at an even position of the flat array is a string. -/
def evensAreStrings : List JSVal → Bool
  | [] => true
  | .vstr _ :: _ :: rest => evensAreStrings rest
  | [.vstr _] => true
  | _ => false

/-! ## Lite constants and `LitePeer.join` -/

/-- `Photon.Lite.Constants.LiteOpKey` (the subset `join` uses). -/
def LiteOpKey.gameId : Int := 255

/-- `LiteOpKey.GameProperties`. -/
def LiteOpKey.gameProperties : Int := 248

/-- `LiteOpKey.ActorProperties`. -/
def LiteOpKey.actorProperties : Int := 249

/-- `LiteOpKey.Broadcast`. -/
def LiteOpKey.broadcast : Int := 250

/-- `Photon.Lite.Constants.LiteOpCode.Join`. -/
def LiteOpCode.join : Int := 255

/-- The `LitePeer` state on top of the peer state. -/
structure LitePeer extends PeerState where
  isJoined : Bool
deriving Repr

/-- The operation-parameter array `LitePeer.join` builds: room id, the
property sets when their arguments have object type, and the broadcast flag
(`broadcast || false`). -/
def liteJoinArgs (roomName roomProperties actorProperties broadcast : JSVal) :
    List JSVal :=
  [JSVal.vnum LiteOpKey.gameId, .vstr (jsToString roomName)]
    ++ (if jsTypeofObject roomProperties then
          [JSVal.vnum LiteOpKey.gameProperties, roomProperties] else [])
    ++ (if jsTypeofObject actorProperties then
          [JSVal.vnum LiteOpKey.actorProperties, actorProperties] else [])
    ++ [JSVal.vnum LiteOpKey.broadcast,
        if jsTruthy broadcast then broadcast else .vbool false]

/-- `LitePeer.join(roomName, roomProperties, actorProperties, broadcast)`:
with a defined room name, a connected peer and no room joined, send one Join
operation with the built parameter array; otherwise throw the error matching
the failed precondition. -/
def litePeerJoin (p : LitePeer) (roomName roomProperties actorProperties broadcast : JSVal) :
    Except String LitePeer :=
  if !jsStrictEq roomName .vundefined && p.isConnected && !p.isJoined then
    match sendOperation p.toPeerState LiteOpCode.join
        (.varr (liteJoinArgs roomName roomProperties actorProperties broadcast)) with
    | .ok ps => .ok { p with toPeerState := ps }
    | .error e => .error e
  else if jsStrictEq roomName .vundefined then
    .error "PhotonPeer.Lite[join] - Trying to join with undefined roomName!"
  else if p.isJoined then
    .error "PhotonPeer.Lite[join] - you have already joined!"
  else
    .error "PhotonPeer.Lite[join] - Not connected!"

/-! ## LoadBalancing constants -/

/-- `Constants.GameProperties.MaxPlayers`. -/
def GameProps.maxPlayers : Nat := 255

/-- `Constants.GameProperties.IsVisible`. -/
def GameProps.isVisible : Nat := 254

/-- `Constants.GameProperties.IsOpen`. -/
def GameProps.isOpen : Nat := 253

/-- `Constants.GameProperties.PlayerCount`. -/
def GameProps.playerCount : Nat := 252

/-- `Constants.GameProperties.Removed`. -/
def GameProps.removed : Nat := 251

/-- `Constants.GameProperties.PropsListedInLobby`. -/
def GameProps.propsListedInLobby : Nat := 250

/-- `Constants.GameProperties.CleanupCacheOnLeave`. -/
def GameProps.cleanupCacheOnLeave : Nat := 249

/-- `Constants.ParameterCode.ActorNr`. -/
def ParamCode.actorNr : Nat := 254

/-- `Constants.ParameterCode.PlayerProperties`. -/
def ParamCode.playerProperties : Nat := 249

/-- `Constants.ParameterCode.GameProperties`. -/
def ParamCode.gameProperties : Nat := 248

/-- `Constants.ActorProperties.PlayerName`. -/
def ActorProps.playerName : Nat := 255

/-! ## `RoomInfo` and `_updateFromProps` -/

/-- The `RoomInfo` fields. Standard properties hold whatever JS value the last
update assigned (the constructor defaults shown in `RoomInfo.new`). -/
structure RoomInfo where
  name : String
  address : String
  maxPlayers : JSVal
  isVisible : JSVal
  isOpen : JSVal
  playerCount : JSVal
  removed : JSVal
  cleanupCacheOnLeave : JSVal
  customProperties : List (String × JSVal)
  propsListedInLobby : JSVal
deriving Repr

/-- `new RoomInfo(name)`. -/
def RoomInfo.new (name : String) : RoomInfo where
  name := name
  address := ""
  maxPlayers := .vnum 0
  isVisible := .vbool true
  isOpen := .vbool true
  playerCount := .vnum 0
  removed := .vbool false
  cleanupCacheOnLeave := .vbool false
  customProperties := []
  propsListedInLobby := .varr []

/-- `RoomInfo.updateIfExists(prevValue, code, props)`: take `props[code]` when
the (stringified numeric) key is present, else keep the previous value. -/
def updateIfExists (prevValue : JSVal) (code : Nat) (props : JSVal) : JSVal :=
  if objHasJS props (toString code) then objGetJS props (toString code)
  else prevValue

/-- One step of the custom-properties copy loop in `_updateFromProps`: a key
failing the numeric test (`parseInt(k).toString() != k`) whose incoming value
differs (strictly) from the stored one is written to both the custom
properties and the changed-properties object. -/
def updateCustomStep (cp : JSVal)
    (acc : List (String × JSVal) × List (String × JSVal)) (k : String) :
    List (String × JSVal) × List (String × JSVal) :=
  if jsParseIntToString k ≠ k then
    if jsStrictEq (objGet acc.1 k) (objGetJS cp k) then acc
    else (objSet acc.1 k (objGetJS cp k), objSet acc.2 k (objGetJS cp k))
  else acc

/-- `RoomInfo._updateFromProps(props, customProps)`: with truthy `props`,
refresh every standard field present in `props`, then copy the non-numeric
keys of `customProps` (defaulted to `props` itself when null) whose values
changed; returns the updated room and the changed-properties object handed to
`onPropertiesChange`. Falsy `props` is a no-op. -/
def updateFromProps (r : RoomInfo) (props : JSVal) (customProps : JSVal) :
    RoomInfo × List (String × JSVal) :=
  if jsTruthy props then
    let r1 := { r with
      maxPlayers := updateIfExists r.maxPlayers GameProps.maxPlayers props
      isVisible := updateIfExists r.isVisible GameProps.isVisible props
      isOpen := updateIfExists r.isOpen GameProps.isOpen props
      playerCount := updateIfExists r.playerCount GameProps.playerCount props
      removed := updateIfExists r.removed GameProps.removed props
      propsListedInLobby :=
        updateIfExists r.propsListedInLobby GameProps.propsListedInLobby props
      cleanupCacheOnLeave :=
        updateIfExists r.cleanupCacheOnLeave GameProps.cleanupCacheOnLeave props }
    let cp := if jsStrictEq customProps .vnull then props else customProps
    let folded := ((forInPairs cp).map Prod.fst).foldl (updateCustomStep cp)
      (r1.customProperties, [])
    ({ r1 with customProperties := folded.1 }, folded.2)
  else (r, [])

/-! ## The master peer's GameListUpdate listener -/

/-- In-place update of the first room with the given name (the event listener
mutates `exist[0]`, the first element of the name filter). -/
def replaceFirstRoom : List RoomInfo → String → RoomInfo → List RoomInfo
  | [], _, _ => []
  | x :: xs, g, r =>
    if x.name = g then r :: xs else x :: replaceFirstRoom xs g r

/-- Result of the GameListUpdate listener: the remaining visible room list and
the three report partitions. -/
structure GameListUpdateResult where
  roomInfos : List RoomInfo
  roomsUpdated : List RoomInfo
  roomsAdded : List RoomInfo
  roomsRemoved : List RoomInfo
deriving Repr

/-- One iteration of the GameListUpdate loop for a room name `g`: a room
already in the collection is updated in place and classified as removed or
updated by its (updated) `removed` flag; an unmatched name becomes a fresh
room that is appended to the collection and pushed to the added partition. -/
def gameListUpdateStep (gameList : JSVal) (acc : GameListUpdateResult)
    (g : String) : GameListUpdateResult :=
  match acc.roomInfos.find? (fun x => x.name = g) with
  | some r =>
    let r' := (updateFromProps r (objGetJS gameList g) .vnull).1
    let rooms' := replaceFirstRoom acc.roomInfos g r'
    if jsTruthy r'.removed then
      { acc with roomInfos := rooms', roomsRemoved := acc.roomsRemoved ++ [r'] }
    else
      { acc with roomInfos := rooms', roomsUpdated := acc.roomsUpdated ++ [r'] }
  | none =>
    let r' := (updateFromProps (RoomInfo.new g) (objGetJS gameList g) .vnull).1
    { acc with roomInfos := acc.roomInfos ++ [r'],
               roomsAdded := acc.roomsAdded ++ [r'] }

/-- The master peer's `EventCode.GameListUpdate` listener: fold the update
batch over the current room collection, then drop every room flagged removed
from the visible list handed to `onRoomListUpdate`. -/
def gameListUpdateEvent (roomInfos : List RoomInfo) (gameList : JSVal) :
    GameListUpdateResult :=
  let folded := ((forInPairs gameList).map Prod.fst).foldl
    (gameListUpdateStep gameList)
    { roomInfos := roomInfos, roomsUpdated := [], roomsAdded := [], roomsRemoved := [] }
  { folded with roomInfos := folded.roomInfos.filter (fun x => ¬ jsTruthy x.removed) }

/-! ## LoadBalancing workflow state machine (`LoadBalancingClient.State`,
`initValidNextState`, `checkNextState`, `connect`) -/

/-- `LoadBalancingClient.State` (numeric constants -1..8 in the source). -/
inductive LBState where
  | error
  | uninitialized
  | connectingToMasterserver
  | connectedToMaster
  | joinedLobby
  | connectingToGameserver
  | connectedToGameserver
  | joined
  | disconnecting
  | disconnected
deriving Repr, DecidableEq

/-- The transition table built by `LoadBalancingClient.initValidNextState`.
`none` models a state that gets no entry at all (its `validNextState[...]`
slot stays `undefined`). -/
def validNextState : LBState → Option (List LBState)
  | .error => some [.connectingToMasterserver]
  | .uninitialized => some [.connectingToMasterserver]
  | .disconnected => some [.connectingToMasterserver]
  | .connectedToMaster => some [.joinedLobby]
  | .joinedLobby => some [.connectingToGameserver]
  | .connectingToGameserver => some [.connectedToGameserver]
  | .connectedToGameserver => some [.joined]
  | _ => none

/-- `(state, nextState)` has an entry in the transition table:
`valid && valid.indexOf(nextState) >= 0` as a boolean. -/
def inNextStateTable (state nextState : LBState) : Bool :=
  match validNextState state with
  | some valid => valid.contains nextState
  | none => false

/-- The slice of `LoadBalancingClient` mutable state the workflow claims
touch. `masterPeerConnected` records that a `MasterPeer` was created,
initialized and its `connect()` called. -/
structure LBClient where
  state : LBState
  reconnectPending : Bool
  keepMasterConnection : Bool
  masterPeerConnected : Bool
deriving Repr, DecidableEq

/-- `LoadBalancingClient.checkNextState(nextState, dontThrow)`. The method
only reads `this.state`; the client is threaded through (and returned
unchanged) so that the absence of mutation is part of the statement. A thrown
`Error` is `Except.error`. -/
def checkNextState (c : LBClient) (nextState : LBState) (dontThrow : Bool) :
    Except String (Bool × LBClient) :=
  let res := inNextStateTable c.state nextState
  if res || dontThrow then
    .ok (res, c)
  else
    .error "LoadBalancingPeer checkNextState fail"

/-- `LoadBalancingClient.connect(keepMasterConnection)`: clears
`reconnectPending`, then either passes `checkNextState` (entering
`ConnectingToMasterserver` and creating/connecting the master peer, returning
`true`) or propagates the thrown state-violation error. -/
def lbConnect (c : LBClient) (keepMasterConnection : Bool) :
    Except String (Bool × LBClient) := do
  let c1 := { c with reconnectPending := false }
  let (res, c2) ← checkNextState c1 .connectingToMasterserver false
  if res then
    let c3 := { c2 with
      state := .connectingToMasterserver
      keepMasterConnection := keepMasterConnection
      masterPeerConnected := true }
    return (true, c3)
  else
    return (false, c2)

/-! ## `Actor` and the game peer's CreateGame/JoinGame response listeners -/

/-- The `Actor` fields the join/create claims touch. -/
structure Actor where
  name : JSVal
  actorNr : JSVal
  isLocal : Bool
  customProperties : List (String × JSVal)
deriving Repr

/-- `Actor._updateMyActorFromResponse(vals)`. -/
def updateMyActorFromResponse (a : Actor) (vals : JSVal) : Actor :=
  { a with actorNr := objGetJS vals (toString ParamCode.actorNr) }

/-- `Actor._updateCustomProperties(vals)`: copy every enumerated property. -/
def actorUpdateCustomProperties (a : Actor) (vals : JSVal) : Actor :=
  let copied := (forInPairs vals).foldl
    (fun m kv => objSet m kv.1 (objGetJS vals kv.1)) a.customProperties
  { a with customProperties := copied }

/-- The slice of `LoadBalancingClient` state the game-peer response listeners
touch. `actors` is the JS object `this.actors`, keyed by the stringified
actor number. -/
structure GameClient where
  myActor : Actor
  actors : List (String × Actor)
  currentRoom : RoomInfo
  state : LBState
deriving Repr

/-- `LoadBalancingClient.addActor(a)` (`this.actors[a.actorNr] = a`). -/
def addActor (c : GameClient) (a : Actor) : GameClient :=
  { c with actors := objSet c.actors (jsToString a.actorNr) a }

/-- An operation response as delivered to a response listener
(`{ errCode: ..., vals: ... }`; `errCode` is 0 when the wire carried no
error). -/
structure RespData where
  errCode : JSVal
  vals : JSVal

/-- The game peer's `OperationCode.CreateGame` response listener: on success,
reseed the local actor's number from the response, reset the actor table to
exactly the local actor, and enter the Joined state. -/
def gamePeerCreateGameResponse (c : GameClient) (data : RespData) : GameClient :=
  if ¬ jsTruthy data.errCode then
    let my := updateMyActorFromResponse c.myActor data.vals
    let c1 := { c with myActor := my, actors := [] }
    let c2 := addActor c1 my
    { c2 with state := .joined }
  else c

/-- The loop body filling the actor table from the JoinGame response's
player-properties object: each key is parsed as the actor number of a fresh
remote actor whose name and custom properties come from the entry. -/
def joinGameActorStep (actorList : JSVal) (c : GameClient) (k : String) :
    GameClient :=
  let props := objGetJS actorList k
  let a : Actor :=
    { name := objGetJS props (toString ActorProps.playerName)
      actorNr := jsParseIntJS k
      isLocal := false
      customProperties := [] }
  let a := actorUpdateCustomProperties a props
  addActor c a

/-- The game peer's `OperationCode.JoinGame` response listener: on success,
reseed the local actor's number, merge the returned game properties into the
current room, reset the actor table to the local actor, then add one actor per
entry of the player-properties parameter, and enter the Joined state. -/
def gamePeerJoinGameResponse (c : GameClient) (data : RespData) : GameClient :=
  if ¬ jsTruthy data.errCode then
    let my := updateMyActorFromResponse c.myActor data.vals
    let room' := (updateFromProps c.currentRoom
      (objGetJS data.vals (toString ParamCode.gameProperties)) .vnull).1
    let c1 := { c with myActor := my, currentRoom := room', actors := [] }
    let c2 := addActor c1 my
    let actorList := objGetJS data.vals (toString ParamCode.playerProperties)
    let c3 := ((forInPairs actorList).map Prod.fst).foldl
      (joinGameActorStep actorList) c2
    { c3 with state := .joined }
  else c

/-! ## Concrete scenario fixtures -/

/-- The room `A(p=1)` of the room-list reconciliation scenario. -/
def roomA1 : RoomInfo := { RoomInfo.new "A" with playerCount := .vnum 1 }

/-- The room `B(p=2)` of the room-list reconciliation scenario. -/
def roomB2 : RoomInfo := { RoomInfo.new "B" with playerCount := .vnum 2 }

/-- The update batch of the room-list reconciliation scenario:
`A: p=5`, `C: p=1 removed`, `D: p=3` keyed by the wire-level numeric game
property codes (252 = PlayerCount, 251 = Removed). -/
def batchACD : JSVal := .vobj
  [("A", .vobj [("252", .vnum 5)]),
   ("C", .vobj [("252", .vnum 1), ("251", .vbool true)]),
   ("D", .vobj [("252", .vnum 3)])]

/-- Name and player count of every room of a list (scenario observations). -/
def roomsView (rooms : List RoomInfo) : List (String × JSVal) :=
  rooms.map (fun r => (r.name, r.playerCount))

/-- Applying a sequence of `_updateFromProps` calls (first component: `props`
argument, second: `customProps` argument). -/
def applyRoomUpdates (r : RoomInfo) (updates : List (JSVal × JSVal)) : RoomInfo :=
  updates.foldl (fun room u => (updateFromProps room u.1 u.2).1) r

/-- A connected peer that is closing, with an empty send trace and the default
keep-alive configuration (the state `disconnect()` leaves a connected peer
in). -/
def closingPeer : PeerState where
  isConnected := true
  isClosing := true
  keepAliveTimeoutMs := 5000
  now := 0
  keepAliveTimer := none
  sent := []
  sentMsgs := []
  pingsSent := []

/-- A connected, non-closing peer with an empty send trace. -/
def livePeer : PeerState where
  isConnected := true
  isClosing := false
  keepAliveTimeoutMs := 5000
  now := 0
  keepAliveTimer := none
  sent := []
  sentMsgs := []
  pingsSent := []

/-- A Lite peer over `closingPeer` with no room joined. -/
def closingLitePeer : LitePeer where
  toPeerState := closingPeer
  isJoined := false

/-- A Lite peer over `livePeer` with no room joined. -/
def liveLitePeer : LitePeer where
  toPeerState := livePeer
  isJoined := false

/-- A live peer whose keep-alive timeout is below the 1000 threshold. -/
def lowTimeoutPeer : PeerState := { livePeer with keepAliveTimeoutMs := 999 }

/-- A live peer with the keep-alive timer armed for time 3. -/
def armedPeer : PeerState := { livePeer with keepAliveTimer := some 3 }

/-- The local actor before any room is entered
(`actorFactoryInternal("", -1, true)`). -/
def localActor0 : Actor where
  name := .vstr ""
  actorNr := .vnum (-1)
  isLocal := true
  customProperties := []

/-- A game-peer client that authenticated and is about to receive the
create/join response: the local actor is in the table under its placeholder
number. -/
def gameClient0 : GameClient where
  myActor := localActor0
  actors := [("-1", localActor0)]
  currentRoom := RoomInfo.new "r1"
  state := .connectedToGameserver

/-- A successful CreateGame response assigning actor number 1. -/
def createResp1 : RespData where
  errCode := .vnum 0
  vals := .vobj [("254", .vnum 1)]

/-- A successful JoinGame response assigning actor number 1 and listing two
other actors (numbers 2 and 3). -/
def joinResp2 : RespData where
  errCode := .vnum 0
  vals := .vobj
    [("254", .vnum 1),
     ("249", .vobj
       [("2", .vobj [("255", .vstr "Bob")]),
        ("3", .vobj [])])]

/-! # Theorems -/

/-! ## Helper lemmas -/

theorem objSet_keys {α : Type} (m : List (String × α)) (k : String) (v : α)
    (x : String) (hx : x ∈ (objSet m k v).map Prod.fst) :
    x ∈ m.map Prod.fst ∨ x = k := by
  induction m with
  | nil =>
    simp only [objSet, List.map_cons, List.map_nil, List.mem_singleton] at hx
    exact .inr hx
  | cons kv rest ih =>
    obtain ⟨k0, w⟩ := kv
    by_cases h : k0 = k
    · simp only [objSet, if_pos h, List.map_cons, List.mem_cons] at hx ⊢
      exact .inl hx
    · simp only [objSet, if_neg h, List.map_cons, List.mem_cons] at hx ⊢
      rcases hx with h1 | h1
      · exact .inl (.inl h1)
      · rcases ih h1 with h2 | h2
        · exact .inl (.inr h2)
        · exact .inr h2

theorem updateCustomStep_keys1 (cp : JSVal)
    (acc : List (String × JSVal) × List (String × JSVal)) (k x : String)
    (hx : x ∈ (updateCustomStep cp acc k).1.map Prod.fst) :
    x ∈ acc.1.map Prod.fst ∨ jsParseIntToString x ≠ x := by
  unfold updateCustomStep at hx
  split at hx
  · split at hx
    · exact .inl hx
    · rcases objSet_keys _ _ _ _ hx with h | h
      · exact .inl h
      · subst h; right; assumption
  · exact .inl hx

theorem updateCustomStep_keys2 (cp : JSVal)
    (acc : List (String × JSVal) × List (String × JSVal)) (k x : String)
    (hx : x ∈ (updateCustomStep cp acc k).2.map Prod.fst) :
    x ∈ acc.2.map Prod.fst ∨ jsParseIntToString x ≠ x := by
  unfold updateCustomStep at hx
  split at hx
  · split at hx
    · exact .inl hx
    · rcases objSet_keys _ _ _ _ hx with h | h
      · exact .inl h
      · subst h; right; assumption
  · exact .inl hx

theorem updateCustom_foldl_keys (cp : JSVal) (ks : List String)
    (acc : List (String × JSVal) × List (String × JSVal)) (x : String) :
    (x ∈ (ks.foldl (updateCustomStep cp) acc).1.map Prod.fst →
      x ∈ acc.1.map Prod.fst ∨ jsParseIntToString x ≠ x) ∧
    (x ∈ (ks.foldl (updateCustomStep cp) acc).2.map Prod.fst →
      x ∈ acc.2.map Prod.fst ∨ jsParseIntToString x ≠ x) := by
  induction ks generalizing acc with
  | nil => exact ⟨fun h => .inl h, fun h => .inl h⟩
  | cons k rest ih =>
    constructor
    · intro h
      rcases (ih (updateCustomStep cp acc k)).1 h with h1 | h1
      · exact updateCustomStep_keys1 cp acc k x h1
      · exact .inr h1
    · intro h
      rcases (ih (updateCustomStep cp acc k)).2 h with h1 | h1
      · exact updateCustomStep_keys2 cp acc k x h1
      · exact .inr h1

theorem updateFromProps_keys (r : RoomInfo) (props customProps : JSVal)
    (x : String)
    (hx : x ∈ (updateFromProps r props customProps).1.customProperties.map Prod.fst) :
    x ∈ r.customProperties.map Prod.fst ∨ jsParseIntToString x ≠ x := by
  unfold updateFromProps at hx
  split at hx
  · exact (updateCustom_foldl_keys _ _ _ x).1 hx
  · exact .inl hx

theorem updateFromProps_changed_keys (r : RoomInfo) (props customProps : JSVal)
    (x : String)
    (hx : x ∈ (updateFromProps r props customProps).2.map Prod.fst) :
    jsParseIntToString x ≠ x := by
  unfold updateFromProps at hx
  split at hx
  · rcases (updateCustom_foldl_keys _ _ _ x).2 hx with h | h
    · simp at h
    · exact h
  · simp at hx

theorem applyRoomUpdates_keys (updates : List (JSVal × JSVal)) (r : RoomInfo)
    (hr : ∀ k ∈ r.customProperties.map Prod.fst, jsParseIntToString k ≠ k)
    (x : String)
    (hx : x ∈ (applyRoomUpdates r updates).customProperties.map Prod.fst) :
    jsParseIntToString x ≠ x := by
  induction updates generalizing r with
  | nil => exact hr x hx
  | cons u rest ih =>
    refine ih ((updateFromProps r u.1 u.2).1) ?_ hx
    intro k hk
    rcases updateFromProps_keys r u.1 u.2 k hk with h | h
    · exact hr k h
    · exact h

theorem objSet_fresh {α : Type} (m : List (String × α)) (k : String) (v : α)
    (h : k ∉ m.map Prod.fst) : objSet m k v = m ++ [(k, v)] := by
  induction m with
  | nil => rfl
  | cons kv rest ih =>
    obtain ⟨k0, w⟩ := kv
    simp only [List.map_cons, List.mem_cons, not_or] at h
    have hne : k0 ≠ k := fun hk => h.1 hk.symm
    simp only [objSet, if_neg hne, List.cons_append, List.cons.injEq, true_and]
    exact ih h.2

theorem pairUpVals_eq : ∀ (xs : List JSVal) (acc : List (String × JSVal)),
    (∀ x ∈ (zipPairs xs).map Prod.fst, x ∉ acc.map Prod.fst) →
    ((zipPairs xs).map Prod.fst).Nodup →
    pairUpVals xs acc = acc ++ zipPairs xs
  | [], acc, _, _ => by simp [pairUpVals, zipPairs]
  | [x], acc, _, _ => by simp [pairUpVals, zipPairs]
  | k :: v :: rest, acc, hdisj, hnodup => by
    have hk : jsToString k ∉ acc.map Prod.fst := by
      refine hdisj (jsToString k) ?_
      simp [zipPairs]
    have hstep : objSet acc (jsToString k) v = acc ++ [(jsToString k, v)] :=
      objSet_fresh acc (jsToString k) v hk
    simp only [zipPairs, List.map_cons, List.nodup_cons] at hnodup
    have hdisj' : ∀ x ∈ (zipPairs rest).map Prod.fst,
        x ∉ (acc ++ [(jsToString k, v)]).map Prod.fst := by
      intro x hx
      simp only [List.map_append, List.mem_append, List.map_cons, List.map_nil,
        List.mem_singleton, not_or]
      refine ⟨?_, ?_⟩
      · refine hdisj x ?_
        simp [zipPairs, hx]
      · intro hxk
        exact hnodup.1 (hxk ▸ hx)
    calc pairUpVals (k :: v :: rest) acc
        = pairUpVals rest (objSet acc (jsToString k) v) := rfl
      _ = pairUpVals rest (acc ++ [(jsToString k, v)]) := by rw [hstep]
      _ = (acc ++ [(jsToString k, v)]) ++ zipPairs rest :=
          pairUpVals_eq rest _ hdisj' hnodup.2
      _ = acc ++ zipPairs (k :: v :: rest) := by simp [zipPairs]

theorem flattenPairsInOrder_zipPairs : ∀ (xs : List JSVal), xs.length % 2 = 0 →
    evensAreStrings xs = true → flattenPairsInOrder (zipPairs xs) = xs
  | [], _, _ => rfl
  | [_], h, _ => by simp at h
  | k :: v :: rest, h, hs => by
    obtain ⟨s, rfl⟩ : ∃ s, k = JSVal.vstr s := by
      cases k <;> first | exact ⟨_, rfl⟩ | simp [evensAreStrings] at hs
    have hrest : rest.length % 2 = 0 := by
      simp only [List.length_cons] at h
      omega
    have hsrest : evensAreStrings rest = true := by
      simpa [evensAreStrings] using hs
    simp only [zipPairs, flattenPairsInOrder, List.map_cons, List.flatten_cons,
      jsToString]
    have := flattenPairsInOrder_zipPairs rest hrest hsrest
    simp only [flattenPairsInOrder] at this
    simp [this]

theorem zipPairs_flattenPairsInOrder (pairs : List (String × JSVal)) :
    zipPairs (flattenPairsInOrder pairs) = pairs := by
  induction pairs with
  | nil => rfl
  | cons kv rest ih =>
    obtain ⟨k, v⟩ := kv
    simp only [flattenPairsInOrder, List.map_cons, List.flatten_cons] at ih ⊢
    simp [zipPairs, jsToString, ih]

theorem flattenPairsInOrder_length (pairs : List (String × JSVal)) :
    (flattenPairsInOrder pairs).length = 2 * pairs.length := by
  induction pairs with
  | nil => rfl
  | cons kv rest ih =>
    simp only [flattenPairsInOrder, List.map_cons, List.flatten_cons] at ih ⊢
    simp [ih]; ring

theorem jsEnumPairs_perm (fields : List (String × JSVal)) :
    (jsEnumPairs fields).Perm fields := by
  unfold jsEnumPairs
  exact ((List.perm_insertionSort _ _).append_right _).trans
    (List.filter_append_perm _ fields)

theorem jsEnumPairs_of_noIndex (fields : List (String × JSVal))
    (h : ∀ kv ∈ fields, jsIsIndexKey kv.1 = false) :
    jsEnumPairs fields = fields := by
  unfold jsEnumPairs
  have h1 : fields.filter (fun kv => jsIsIndexKey kv.1) = [] :=
    List.filter_eq_nil_iff.mpr (by intro kv hkv; simp [h kv hkv])
  have h2 : fields.filter (fun kv => !jsIsIndexKey kv.1) = fields :=
    List.filter_eq_self.mpr (by intro kv hkv; simp [h kv hkv])
  rw [h1, h2]
  rfl

theorem flattenVals_of_noIndex (pairs : List (String × JSVal))
    (h : ∀ k ∈ pairs.map Prod.fst, jsIsIndexKey k = false) :
    flattenVals pairs = flattenPairsInOrder pairs := by
  unfold flattenVals
  rw [jsEnumPairs_of_noIndex pairs ?_]
  intro kv hkv
  exact h kv.1 (List.mem_map_of_mem _ hkv)

/-! ## C1: room-list reconciliation scenario -/

/-- C1 (counterexample): starting from `[A(p=1), B(p=2)]` and applying the
batch `{A: p=5, C: p=1 removed, D: p=3}`, the listener does NOT report
added = `[D]` as the claim states: the unmatched entry `C`, although flagged
removed, is pushed to the added partition unconditionally. -/
theorem gameListUpdate_claim_counterexample :
    (gameListUpdateEvent [roomA1, roomB2] batchACD).roomsAdded.map
      (fun r => r.name) ≠ ["D"] := by decide

/-- C1 (amended): on the scenario `[A(p=1), B(p=2)]` with batch
`{A: p=5, C: p=1 removed, D: p=3}`, the listener reports
updated = `[A(p=5)]`, added = `[C(p=1, removed), D(p=3)]` (the unmatched
removed-flagged entry C is reported added, not removed), removed = `[]`, and
the resulting visible room list is exactly `[A(p=5), B(p=2), D(p=3)]`. -/
theorem gameListUpdate_scenario :
    roomsView (gameListUpdateEvent [roomA1, roomB2] batchACD).roomsUpdated
        = [("A", .vnum 5)] ∧
    (gameListUpdateEvent [roomA1, roomB2] batchACD).roomsAdded.map
        (fun r => (r.name, r.playerCount, r.removed))
        = [("C", .vnum 1, .vbool true), ("D", .vnum 3, .vbool false)] ∧
    (gameListUpdateEvent [roomA1, roomB2] batchACD).roomsRemoved = [] ∧
    roomsView (gameListUpdateEvent [roomA1, roomB2] batchACD).roomInfos
        = [("A", .vnum 5), ("B", .vnum 2), ("D", .vnum 3)] := by
  refine ⟨rfl, rfl, rfl, rfl⟩

/-! ## C3: transition-table guard -/

/-- C3: for every (state, requested state) pair, the guarded attempt
(`checkNextState` with `dontThrow = false`) throws the state-violation error
exactly when the pair is not in the transition table (including states with no
entry at all), any non-throwing call returns the client unchanged, and
`checkNextState` returns `true` exactly for pairs present in the table. -/
theorem checkNextState_spec (c : LBClient) (nextState : LBState) :
    (inNextStateTable c.state nextState = false →
      checkNextState c nextState false
        = .error "LoadBalancingPeer checkNextState fail") ∧
    (∀ dontThrow r c', checkNextState c nextState dontThrow = .ok (r, c') →
      c' = c) ∧
    (∀ dontThrow,
      checkNextState c nextState dontThrow = .ok (true, c) ↔
        inNextStateTable c.state nextState = true) := by
  refine ⟨?_, ?_, ?_⟩
  · intro h
    simp [checkNextState, h]
  · intro dontThrow r c' h
    by_cases ht : inNextStateTable c.state nextState <;>
      cases dontThrow <;> simp [checkNextState, ht] at h <;> exact h.2.symm
  · intro dontThrow
    by_cases ht : inNextStateTable c.state nextState <;>
      cases dontThrow <;> simp [checkNextState, ht]

/-- C3 witness: a pair absent from the table (`Joined` has no entry) throws,
and a pair present in the table returns `true` with the client unchanged. -/
theorem checkNextState_spec_witness :
    checkNextState ⟨.joined, false, false, false⟩ .connectedToMaster false
        = .error "LoadBalancingPeer checkNextState fail" ∧
    checkNextState ⟨.uninitialized, false, false, false⟩
        .connectingToMasterserver false
        = .ok (true, ⟨.uninitialized, false, false, false⟩) := by
  constructor
  · exact (checkNextState_spec ⟨.joined, false, false, false⟩
      .connectedToMaster).1 (by decide)
  · exact ((checkNextState_spec ⟨.uninitialized, false, false, false⟩
      .connectingToMasterserver).2.2 false).mpr (by decide)

/-! ## C9: connect never returns false -/

/-- C9: `LoadBalancingClient.connect` never returns `false`: from every client
state it either throws the state-violation error from `checkNextState`, or
transitions to `ConnectingToMasterserver`, creates and connects the master
peer, and returns `true`. -/
theorem lbConnect_never_false (c : LBClient) (kmc : Bool) :
    (∃ e, lbConnect c kmc = .error e) ∨
    (∃ c', lbConnect c kmc = .ok (true, c') ∧
      c'.state = .connectingToMasterserver ∧ c'.masterPeerConnected = true) := by
  by_cases h : inNextStateTable c.state .connectingToMasterserver
  · right
    refine ⟨{ state := .connectingToMasterserver,
              reconnectPending := false,
              keepMasterConnection := kmc,
              masterPeerConnected := true }, ?_, rfl, rfl⟩
    simp [lbConnect, checkNextState, h, bind, Except.bind, pure, Except.pure]
  · left
    refine ⟨"LoadBalancingPeer checkNextState fail", ?_⟩
    simp only [Bool.not_eq_true] at h
    simp [lbConnect, checkNextState, h, bind, Except.bind]

/-! ## C10: numeric keys never enter a room's custom properties -/

/-- C10: `RoomInfo._updateFromProps` copies only keys `k` with
`parseInt(k).toString() != k` into the custom properties and into the
changed-properties callback object, so that after any sequence of updates a
room whose custom-property keys all fail the numeric test (in particular a
fresh room) never acquires one, and no numeric game-property code string ever
appears among its custom-property keys. -/
theorem updateFromProps_numericKeys :
    (∀ (r : RoomInfo) (props customProps : JSVal) (k : String),
      k ∈ (updateFromProps r props customProps).1.customProperties.map Prod.fst →
      k ∈ r.customProperties.map Prod.fst ∨ jsParseIntToString k ≠ k) ∧
    (∀ (r : RoomInfo) (props customProps : JSVal) (k : String),
      k ∈ (updateFromProps r props customProps).2.map Prod.fst →
      jsParseIntToString k ≠ k) ∧
    (∀ (r : RoomInfo) (updates : List (JSVal × JSVal)),
      (∀ k ∈ r.customProperties.map Prod.fst, jsParseIntToString k ≠ k) →
      ∀ k ∈ (applyRoomUpdates r updates).customProperties.map Prod.fst,
        jsParseIntToString k ≠ k) ∧
    (∀ (r : RoomInfo) (updates : List (JSVal × JSVal)),
      (∀ k ∈ r.customProperties.map Prod.fst, jsParseIntToString k ≠ k) →
      ∀ code ∈ [GameProps.maxPlayers, GameProps.isVisible, GameProps.isOpen,
          GameProps.playerCount, GameProps.removed, GameProps.propsListedInLobby,
          GameProps.cleanupCacheOnLeave],
        toString code ∉ (applyRoomUpdates r updates).customProperties.map Prod.fst) := by
  refine ⟨updateFromProps_keys, updateFromProps_changed_keys,
    fun r updates hr => applyRoomUpdates_keys updates r hr, ?_⟩
  intro r updates hr code hcode hmem
  have hguard := applyRoomUpdates_keys updates r hr (toString code) hmem
  fin_cases hcode <;> exact hguard (by decide)

/-- C10 witness: a concrete update carrying both the numeric key "252" and the
non-numeric key "map" stores and reports only the latter, and a fresh room
updated this way holds no game-property code string among its keys. -/
theorem updateFromProps_numericKeys_witness :
    ((updateFromProps (RoomInfo.new "r")
        (.vobj [("252", .vnum 5), ("map", .vstr "m1")]) .vnull).1.customProperties.map
          Prod.fst = ["map"]) ∧
    toString GameProps.playerCount ∉
      (applyRoomUpdates (RoomInfo.new "r")
        [(.vobj [("252", .vnum 5), ("map", .vstr "m1")], .vnull)]).customProperties.map
          Prod.fst := by
  constructor
  · decide
  · exact updateFromProps_numericKeys.2.2.2 (RoomInfo.new "r")
      [(.vobj [("252", .vnum 5), ("map", .vstr "m1")], .vnull)]
      (by intro k hk; simp [RoomInfo.new] at hk)
      GameProps.playerCount (by decide)

/-! ## C5: `vals` un-flattening -/

/-- C5 (counterexample): the even-length two-element array with the unique
non-string key `1` (a number) parses to the mapping keyed by the coerced
string "1", and flattening that mapping back does NOT give the original
array. -/
theorem parseVals_claim_counterexample :
    parseMessageValuesArrayToJSON (.varr [.vnum 1, .vstr "x"])
        = .ok (.vobj [("1", .vstr "x")]) ∧
    flattenVals [("1", .vstr "x")] ≠ [JSVal.vnum 1, JSVal.vstr "x"] := by
  refine ⟨rfl, ?_⟩
  intro h
  rw [show flattenVals [("1", .vstr "x")] = [.vstr "1", .vstr "x"] from rfl] at h
  injection h with h1 h2
  exact JSVal.noConfusion h1

/-- C5 (amended): `_parseMessageValuesArrayToJSON` throws for every array of
odd length; for every even-length array whose elements at even positions are
strings with pairwise-distinct values, none an ECMAScript array-index string,
it returns the mapping pairing each key with the following element, and
flattening that mapping back (enumerating it as JS does) gives the original
array; conversely parsing the flattening of any mapping with such keys
returns that mapping - a bijection between such arrays and mappings.
Array-index keys must be excluded: objects enumerate them in ascending
numeric order regardless of insertion order, as the last conjunct exhibits
(the keys "2" and "1" come back reordered). -/
theorem parseVals_bijection :
    (∀ xs : List JSVal, xs.length % 2 = 1 →
      parseMessageValuesArrayToJSON (.varr xs)
        = .error "PhotonPeer[_parseMessageValuesToJSON] - Received invalid values array") ∧
    (∀ xs : List JSVal, xs.length % 2 = 0 → evensAreStrings xs = true →
      ((zipPairs xs).map Prod.fst).Nodup →
      (∀ k ∈ (zipPairs xs).map Prod.fst, jsIsIndexKey k = false) →
      parseMessageValuesArrayToJSON (.varr xs) = .ok (.vobj (zipPairs xs)) ∧
      flattenVals (zipPairs xs) = xs) ∧
    (∀ pairs : List (String × JSVal), (pairs.map Prod.fst).Nodup →
      (∀ k ∈ pairs.map Prod.fst, jsIsIndexKey k = false) →
      parseMessageValuesArrayToJSON (.varr (flattenVals pairs))
        = .ok (.vobj pairs)) ∧
    flattenVals (pairUpVals [.vstr "2", .vstr "a", .vstr "1", .vstr "b"] [])
      = [.vstr "1", .vstr "b", .vstr "2", .vstr "a"] := by
  refine ⟨?_, ?_, ?_, ?_⟩
  · intro xs h
    have : ¬ xs.length % 2 = 0 := by omega
    simp [parseMessageValuesArrayToJSON, this]
  · intro xs heven hstr hnodup hnoidx
    refine ⟨?_, ?_⟩
    · have hpair : pairUpVals xs [] = [] ++ zipPairs xs :=
        pairUpVals_eq xs [] (by simp) hnodup
      simp only [List.nil_append] at hpair
      simp [parseMessageValuesArrayToJSON, heven, hpair]
    · rw [flattenVals_of_noIndex (zipPairs xs) hnoidx]
      exact flattenPairsInOrder_zipPairs xs heven hstr
  · intro pairs hnodup hnoidx
    rw [flattenVals_of_noIndex pairs hnoidx]
    have heven : (flattenPairsInOrder pairs).length % 2 = 0 := by
      rw [flattenPairsInOrder_length]; omega
    have hzip := zipPairs_flattenPairsInOrder pairs
    have hpair : pairUpVals (flattenPairsInOrder pairs) []
        = [] ++ zipPairs (flattenPairsInOrder pairs) :=
      pairUpVals_eq (flattenPairsInOrder pairs) [] (by simp)
        (by rw [hzip]; exact hnodup)
    rw [hzip] at hpair
    simp only [List.nil_append] at hpair
    simp [parseMessageValuesArrayToJSON, heven, hpair]
  · rfl

/-- C5 witness: the odd-length array `[7]` throws; the even-length array
`["a", 1, "b", null]` with non-index string keys parses to its pairing whose
flattening restores it; parsing the flattening of `{a: 1}` returns it. -/
theorem parseVals_bijection_witness :
    parseMessageValuesArrayToJSON (.varr [.vnum 7])
        = .error "PhotonPeer[_parseMessageValuesToJSON] - Received invalid values array" ∧
    (parseMessageValuesArrayToJSON (.varr [.vstr "a", .vnum 1, .vstr "b", .vnull])
        = .ok (.vobj (zipPairs [.vstr "a", .vnum 1, .vstr "b", .vnull])) ∧
      flattenVals (zipPairs [.vstr "a", .vnum 1, .vstr "b", .vnull])
        = [.vstr "a", .vnum 1, .vstr "b", .vnull]) ∧
    parseMessageValuesArrayToJSON (.varr (flattenVals [("a", .vnum 1)]))
        = .ok (.vobj [("a", .vnum 1)]) := by
  refine ⟨?_, ?_, ?_⟩
  · exact parseVals_bijection.1 [.vnum 7] (by decide)
  · exact parseVals_bijection.2.1 [.vstr "a", .vnum 1, .vstr "b", .vnull]
      (by decide) (by decide) (by decide) (by decide)
  · exact parseVals_bijection.2.2.1 [("a", .vnum 1)] (by decide) (by decide)

/-! ## C6: `sendOperation` argument and connection checks -/

/-- C6: `sendOperation(code, data)` throws the invalid-argument error for
every `data` that is neither an array nor absent; with array or absent data it
throws the not-connected error whenever the peer is not connected or is
closing (it sends with the strict connection check); and when connected and
not closing it encodes the operation request `{req: code, vals: data or []}`
and hands the frame to the socket. -/
theorem sendOperation_spec (p : PeerState) (code : Int) (data : JSVal) :
    (jsIsArray data = false → data ≠ .vundefined →
      sendOperation p code data
        = .error "PhotonPeer[sendOperation] - Trying to send non array data") ∧
    ((jsIsArray data = true ∨ data = .vundefined) →
      (p.isConnected = false ∨ p.isClosing = true) →
      sendOperation p code data
        = .error "PhotonPeer[_send] - Operation failed, not connected") ∧
    (p.isConnected = true → p.isClosing = false →
      (∀ elems, data = .varr elems →
        sendOperation p code data = .ok { resetKeepAlive p with
          sent := p.sent ++ [pEncode [opReqMsg code elems]]
          sentMsgs := p.sentMsgs ++ [opReqMsg code elems] }) ∧
      (data = .vundefined →
        sendOperation p code data = .ok { resetKeepAlive p with
          sent := p.sent ++ [pEncode [opReqMsg code []]]
          sentMsgs := p.sentMsgs ++ [opReqMsg code []] })) := by
  refine ⟨?_, ?_, ?_⟩
  · intro harr hundef
    cases data <;> simp_all [sendOperation, jsIsArray]
  · intro hdata hconn
    have hc : (p.isConnected && !p.isClosing) = false := by
      rcases hconn with h | h <;> simp [h]
    rcases hdata with harr | rfl
    · obtain ⟨elems, rfl⟩ : ∃ elems, data = .varr elems := by
        cases data <;> simp_all [jsIsArray]
      simp [sendOperation, psSend, hc]
    · simp [sendOperation, psSend, hc]
  · intro hconn hclos
    constructor
    · rintro elems rfl
      simp [sendOperation, psSend, hconn, hclos, resetKeepAlive]
    · rintro rfl
      simp [sendOperation, psSend, hconn, hclos, resetKeepAlive]

/-- C6 witness: a number argument throws the invalid-argument error on a live
peer; an array argument throws the not-connected error on a closing peer; and
a live peer sends the encoded operation request. -/
theorem sendOperation_spec_witness :
    sendOperation livePeer 1 (.vnum 3)
      = .error "PhotonPeer[sendOperation] - Trying to send non array data" ∧
    sendOperation closingPeer 1 (.varr [])
      = .error "PhotonPeer[_send] - Operation failed, not connected" ∧
    sendOperation livePeer 255 (.varr [.vnum 255, .vstr "r"])
      = .ok { resetKeepAlive livePeer with
          sent := livePeer.sent ++ [pEncode [opReqMsg 255 [.vnum 255, .vstr "r"]]]
          sentMsgs := livePeer.sentMsgs ++ [opReqMsg 255 [.vnum 255, .vstr "r"]] } := by
  refine ⟨?_, ?_, ?_⟩
  · exact (sendOperation_spec livePeer 1 (.vnum 3)).1 rfl
      (fun h => JSVal.noConfusion h)
  · exact (sendOperation_spec closingPeer 1 (.varr [])).2.1 (.inl rfl) (.inr rfl)
  · exact ((sendOperation_spec livePeer 255 (.varr [.vnum 255, .vstr "r"])).2.2
      rfl rfl).1 [.vnum 255, .vstr "r"] rfl

/-! ## C7: `LitePeer.join` -/

/-- C7 (counterexample): a peer that is connected but closing (the state
`disconnect()` leaves it in), with a defined room name and no room joined,
still throws (the not-connected error surfaces from the underlying `_send`),
contradicting the claim that only an absent name, a disconnected peer or an
already-joined room make `join` throw. -/
theorem litePeerJoin_claim_counterexample :
    closingLitePeer.isConnected = true ∧ closingLitePeer.isJoined = false ∧
    litePeerJoin closingLitePeer (.vstr "r1") .vundefined .vundefined .vundefined
      = .error "PhotonPeer[_send] - Operation failed, not connected" :=
  ⟨rfl, rfl, rfl⟩

/-- C7 (amended): `join` throws if the room name is absent, the peer is not
connected, a room is already joined, or the peer is closing (the underlying
send rejects a closing peer); otherwise it sends exactly one Join operation
whose parameter array `liteJoinArgs` carries the room id, the property sets
when provided as objects, and a broadcast flag that defaults to false when
the broadcast argument is absent or falsy. -/
theorem litePeerJoin_spec (p : LitePeer)
    (roomName roomProperties actorProperties broadcast : JSVal) :
    ((jsStrictEq roomName .vundefined = true ∨ p.isConnected = false ∨
        p.isJoined = true ∨ p.isClosing = true) →
      ∃ e, litePeerJoin p roomName roomProperties actorProperties broadcast
        = .error e) ∧
    (jsStrictEq roomName .vundefined = false → p.isConnected = true →
      p.isJoined = false → p.isClosing = false →
      litePeerJoin p roomName roomProperties actorProperties broadcast
        = .ok { p with toPeerState := { resetKeepAlive p.toPeerState with
            sent := p.sent ++ [pEncode [opReqMsg LiteOpCode.join
              (liteJoinArgs roomName roomProperties actorProperties broadcast)]]
            sentMsgs := p.sentMsgs ++ [opReqMsg LiteOpCode.join
              (liteJoinArgs roomName roomProperties actorProperties broadcast)] } }) ∧
    (jsTruthy broadcast = false →
      ∃ front, liteJoinArgs roomName roomProperties actorProperties broadcast
        = front ++ [JSVal.vnum LiteOpKey.broadcast, JSVal.vbool false]) := by
  refine ⟨?_, ?_, ?_⟩
  · intro h
    by_cases hcond :
        (!jsStrictEq roomName .vundefined && p.isConnected && !p.isJoined) = true
    · have hclos : p.isClosing = true := by
        rcases h with h | h | h | h
        · simp [h] at hcond
        · simp [h] at hcond
        · simp [h] at hcond
        · exact h
      have hconn : p.isConnected = true := by
        simp only [Bool.and_eq_true] at hcond
        exact hcond.1.2
      refine ⟨"PhotonPeer[_send] - Operation failed, not connected", ?_⟩
      unfold litePeerJoin
      rw [hcond]
      simp [sendOperation, psSend, hclos, hconn]
    · have hcf :
          (!jsStrictEq roomName .vundefined && p.isConnected && !p.isJoined) = false := by
        simpa using hcond
      by_cases h1 : jsStrictEq roomName .vundefined = true
      · refine ⟨"PhotonPeer.Lite[join] - Trying to join with undefined roomName!", ?_⟩
        unfold litePeerJoin
        rw [hcf]
        simp [h1]
      · by_cases h2 : p.isJoined = true
        · refine ⟨"PhotonPeer.Lite[join] - you have already joined!", ?_⟩
          unfold litePeerJoin
          rw [hcf]
          simp [h1, h2]
        · refine ⟨"PhotonPeer.Lite[join] - Not connected!", ?_⟩
          unfold litePeerJoin
          rw [hcf]
          simp [h1, h2]
  · intro h1 hconn hjoin hclos
    have hcond :
        (!jsStrictEq roomName .vundefined && p.isConnected && !p.isJoined) = true := by
      simp [h1, hconn, hjoin]
    unfold litePeerJoin
    rw [hcond]
    simp [sendOperation, psSend, hconn, hclos, resetKeepAlive]
  · intro hb
    refine ⟨[JSVal.vnum LiteOpKey.gameId, .vstr (jsToString roomName)]
      ++ (if jsTypeofObject roomProperties then
            [JSVal.vnum LiteOpKey.gameProperties, roomProperties] else [])
      ++ (if jsTypeofObject actorProperties then
            [JSVal.vnum LiteOpKey.actorProperties, actorProperties] else []), ?_⟩
    simp [liteJoinArgs, hb, List.append_assoc]

/-- C7 witness: an undefined room name throws on a live peer, and a live
unjoined peer joining "r1" with a room-property object sends exactly the Join
operation with the built parameter array (whose broadcast flag is false for
the absent broadcast argument). -/
theorem litePeerJoin_spec_witness :
    (∃ e, litePeerJoin liveLitePeer .vundefined .vundefined .vundefined .vundefined = .error e) ∧
    litePeerJoin liveLitePeer (.vstr "r1") (.vobj [("m", .vnum 1)]) .vundefined .vundefined
      = .ok { liveLitePeer with toPeerState :=
          { resetKeepAlive liveLitePeer.toPeerState with
            sent := liveLitePeer.sent ++ [pEncode [opReqMsg LiteOpCode.join
              (liteJoinArgs (.vstr "r1") (.vobj [("m", .vnum 1)]) .vundefined .vundefined)]]
            sentMsgs := liveLitePeer.sentMsgs ++ [opReqMsg LiteOpCode.join
              (liteJoinArgs (.vstr "r1") (.vobj [("m", .vnum 1)]) .vundefined .vundefined)] } } ∧
    (∃ front, liteJoinArgs (.vstr "r1") (.vobj [("m", .vnum 1)]) .vundefined .vundefined
      = front ++ [JSVal.vnum LiteOpKey.broadcast, JSVal.vbool false]) := by
  refine ⟨?_, ?_, ?_⟩
  · exact (litePeerJoin_spec liveLitePeer .vundefined .vundefined .vundefined .vundefined).1
      (.inl rfl)
  · exact (litePeerJoin_spec liveLitePeer (.vstr "r1") (.vobj [("m", .vnum 1)])
      .vundefined .vundefined).2.1 rfl rfl rfl rfl
  · exact (litePeerJoin_spec liveLitePeer (.vstr "r1") (.vobj [("m", .vnum 1)])
      .vundefined .vundefined).2.2 rfl

/-! ## C4: actor table after create/join responses on the game peer -/

theorem joinGameActorStep_actors_eq (actorList : JSVal) (c : GameClient)
    (k : String) :
    (joinGameActorStep actorList c k).actors
      = objSet c.actors (jsToString (jsParseIntJS k))
          (actorUpdateCustomProperties
            ⟨objGetJS (objGetJS actorList k) (toString ActorProps.playerName),
              jsParseIntJS k, false, []⟩ (objGetJS actorList k)) := rfl

theorem joinGameActorStep_fresh (actorList : JSVal) (c : GameClient)
    (k : String)
    (hkfresh : jsToString (jsParseIntJS k) ∉ c.actors.map Prod.fst) :
    ∃ a, (joinGameActorStep actorList c k).actors
      = c.actors ++ [(jsToString (jsParseIntJS k), a)] := by
  refine ⟨actorUpdateCustomProperties
    ⟨objGetJS (objGetJS actorList k) (toString ActorProps.playerName),
      jsParseIntJS k, false, []⟩ (objGetJS actorList k), ?_⟩
  rw [joinGameActorStep_actors_eq]
  exact objSet_fresh _ _ _ hkfresh

theorem foldActors_length (ks : List String) (actorList : JSVal)
    (c : GameClient)
    (hnodup : (ks.map (fun k => jsToString (jsParseIntJS k))).Nodup)
    (hfresh : ∀ k ∈ ks, jsToString (jsParseIntJS k) ∉ c.actors.map Prod.fst) :
    (ks.foldl (joinGameActorStep actorList) c).actors.length
      = c.actors.length + ks.length := by
  induction ks generalizing c with
  | nil => simp
  | cons k rest ih =>
    simp only [List.map_cons, List.nodup_cons] at hnodup
    have hkfresh : jsToString (jsParseIntJS k) ∉ c.actors.map Prod.fst :=
      hfresh k (by simp)
    obtain ⟨a, hstep⟩ := joinGameActorStep_fresh actorList c k hkfresh
    have hfresh' : ∀ x ∈ rest,
        jsToString (jsParseIntJS x) ∉ (joinGameActorStep actorList c k).actors.map
          Prod.fst := by
      intro x hx
      rw [hstep]
      simp only [List.map_append, List.mem_append, List.map_cons, List.map_nil,
        List.mem_singleton, not_or]
      refine ⟨hfresh x (by simp [hx]), ?_⟩
      intro hcontra
      exact hnodup.1 (hcontra ▸ List.mem_map_of_mem _ hx)
    simp only [List.foldl_cons]
    rw [ih (joinGameActorStep actorList c k) hnodup.2 hfresh', hstep]
    simp only [List.length_append, List.length_cons, List.length_nil]
    omega

/-- C4: on the game peer, a successful (error code 0) CreateGame response
leaves the actor table holding exactly the local actor under the
server-assigned non-negative number from the response; a successful JoinGame
response whose player-properties parameter lists N actors, all with numbers
distinct from the local actor's and pairwise distinct, leaves the actor table
with exactly N+1 entries. -/
theorem gamePeer_actorTable_spec :
    (∀ (c : GameClient) (data : RespData) (n : Int),
      jsTruthy data.errCode = false →
      objGetJS data.vals (toString ParamCode.actorNr) = .vnum n → 0 ≤ n →
      c.myActor.isLocal = true →
      (gamePeerCreateGameResponse c data).actors
        = [(toString n, { c.myActor with actorNr := .vnum n })] ∧
      (gamePeerCreateGameResponse c data).myActor.actorNr = .vnum n ∧
      (gamePeerCreateGameResponse c data).myActor.isLocal = true) ∧
    (∀ (c : GameClient) (data : RespData) (alist : List (String × JSVal)) (n : Int),
      jsTruthy data.errCode = false →
      objGetJS data.vals (toString ParamCode.actorNr) = .vnum n →
      objGetJS data.vals (toString ParamCode.playerProperties) = .vobj alist →
      (alist.map (fun kv => jsToString (jsParseIntJS kv.1))).Nodup →
      (∀ kv ∈ alist, jsToString (jsParseIntJS kv.1) ≠ toString n) →
      (gamePeerJoinGameResponse c data).actors.length = alist.length + 1) := by
  constructor
  · intro c data n herr hnr hn hloc
    refine ⟨?_, ?_, ?_⟩
    · simp [gamePeerCreateGameResponse, herr, addActor,
        updateMyActorFromResponse, hnr, objSet, jsToString]
    · simp [gamePeerCreateGameResponse, herr, updateMyActorFromResponse, hnr,
        addActor]
    · simp [gamePeerCreateGameResponse, herr, updateMyActorFromResponse, hloc,
        addActor]
  · intro c data alist n herr hnr hpl hnodup hne
    have hmain :
        (gamePeerJoinGameResponse c data).actors
          = (((forInPairs (.vobj alist)).map Prod.fst).foldl
              (joinGameActorStep (.vobj alist))
              (addActor { c with
                myActor := updateMyActorFromResponse c.myActor data.vals
                currentRoom := (updateFromProps c.currentRoom
                  (objGetJS data.vals (toString ParamCode.gameProperties)) .vnull).1
                actors := [] }
                (updateMyActorFromResponse c.myActor data.vals))).actors := by
      simp [gamePeerJoinGameResponse, herr, hpl]
    rw [hmain]
    set c2 := addActor { c with
      myActor := updateMyActorFromResponse c.myActor data.vals
      currentRoom := (updateFromProps c.currentRoom
        (objGetJS data.vals (toString ParamCode.gameProperties)) .vnull).1
      actors := [] }
      (updateMyActorFromResponse c.myActor data.vals) with hc2
    have hbase : c2.actors
        = [(toString n, updateMyActorFromResponse c.myActor data.vals)] := by
      rw [hc2]
      simp [addActor, updateMyActorFromResponse, hnr, objSet, jsToString]
    have hkeysperm : ((forInPairs (JSVal.vobj alist)).map Prod.fst).Perm
        (alist.map Prod.fst) := by
      show ((jsEnumPairs alist).map Prod.fst).Perm (alist.map Prod.fst)
      exact (jsEnumPairs_perm alist).map Prod.fst
    have hnodup' : (((forInPairs (JSVal.vobj alist)).map Prod.fst).map
        (fun k => jsToString (jsParseIntJS k))).Nodup := by
      refine ((hkeysperm.map (fun k => jsToString (jsParseIntJS k))).nodup_iff).mpr ?_
      rw [List.map_map]
      simpa [Function.comp_def] using hnodup
    have hfresh : ∀ k ∈ (forInPairs (JSVal.vobj alist)).map Prod.fst,
        jsToString (jsParseIntJS k) ∉ c2.actors.map Prod.fst := by
      intro k hk
      rw [hbase]
      simp only [List.map_cons, List.map_nil, List.mem_singleton]
      have hk' : k ∈ alist.map Prod.fst := hkeysperm.mem_iff.mp hk
      obtain ⟨kv, hkv, rfl⟩ := List.mem_map.mp hk'
      exact hne kv hkv
    rw [foldActors_length _ (.vobj alist) c2 hnodup' hfresh, hbase]
    have hlen : ((forInPairs (JSVal.vobj alist)).map Prod.fst).length
        = alist.length := by
      simpa using hkeysperm.length_eq
    rw [hlen]
    simp [Nat.add_comm]

/-- C4 witness: on the concrete game client, the successful CreateGame
response assigning number 1 leaves exactly the local actor keyed "1" in the
table, and the successful JoinGame response listing actors 2 and 3 leaves
exactly three table entries. -/
theorem gamePeer_actorTable_spec_witness :
    (gamePeerCreateGameResponse gameClient0 createResp1).actors
      = [("1", { localActor0 with actorNr := .vnum 1 })] ∧
    (gamePeerJoinGameResponse gameClient0 joinResp2).actors.length = 3 := by
  constructor
  · exact ((gamePeer_actorTable_spec.1 gameClient0 createResp1 1 rfl rfl
      (by decide) rfl).1)
  · have := gamePeer_actorTable_spec.2 gameClient0 joinResp2
      [("2", .vobj [("255", .vstr "Bob")]), ("3", .vobj [])] 1
      rfl rfl rfl (by decide) (by decide)
    simpa using this

/-! ## C8: keep-alive timing -/

theorem psRun_append (p : PeerState) (l1 l2 : List PeerEvent) :
    psRun p (l1 ++ l2) = psRun (psRun p l1) l2 := by
  simp [psRun, List.foldl_append]

theorem psStep_low (p : PeerState) (e : PeerEvent)
    (hlow : p.keepAliveTimeoutMs < 1000) (ht : p.keepAliveTimer = none) :
    (psStep p e).pingsSent = p.pingsSent ∧
    (psStep p e).keepAliveTimer = none ∧
    (psStep p e).keepAliveTimeoutMs = p.keepAliveTimeoutMs := by
  cases e with
  | tick => simp [psStep, ht]
  | appSend d =>
    by_cases hc : (p.isConnected && !p.isClosing) = true
    · simp [psStep, psSend, hc, resetKeepAlive, Nat.not_le.mpr hlow]
    · simp [psStep, psSend, hc, ht]

theorem psRun_low : ∀ (evs : List PeerEvent) (p : PeerState),
    p.keepAliveTimeoutMs < 1000 → p.keepAliveTimer = none →
    (psRun p evs).pingsSent = p.pingsSent
  | [], _, _, _ => rfl
  | e :: evs, p, hlow, ht => by
    obtain ⟨h1, h2, h3⟩ := psStep_low p e hlow ht
    have hrec := psRun_low evs (psStep p e) (h3 ▸ hlow) h2
    simp only [psRun, List.foldl_cons] at hrec ⊢
    rw [hrec, h1]

theorem psRun_ticks_noFire : ∀ (k : Nat) (p : PeerState) (d : Nat),
    p.keepAliveTimer = some d → p.now + k < d →
    psRun p (List.replicate k .tick) = { p with now := p.now + k }
  | 0, p, _, _, _ => by simp [psRun]
  | k + 1, p, d, ht, hk => by
    have hstep : psStep p .tick = { p with now := p.now + 1 } := by
      have hnofire : ¬ d ≤ p.now + 1 := by omega
      simp [psStep, ht, hnofire]
    rw [List.replicate_succ]
    simp only [psRun, List.foldl_cons]
    have hrec := psRun_ticks_noFire k { p with now := p.now + 1 } d
      (by simpa using ht) (by simp; omega)
    simp only [psRun] at hrec
    rw [hstep, hrec]
    have harith : p.now + 1 + k = p.now + (k + 1) := by omega
    simp only [harith]

theorem psStep_tick_fire (p : PeerState) (d : Nat)
    (ht : p.keepAliveTimer = some d) (hd : d = p.now + 1)
    (hconn : p.isConnected = true) (hclos : p.isClosing = false)
    (hka : 1000 ≤ p.keepAliveTimeoutMs) :
    psStep p .tick = { p with
      now := p.now + 1
      keepAliveTimer := some (p.now + 1 + p.keepAliveTimeoutMs)
      sent := p.sent ++ [pEncode [pingMsg (p.now + 1)]]
      sentMsgs := p.sentMsgs ++ [pingMsg (p.now + 1)]
      pingsSent := p.pingsSent ++ [p.now + 1] } := by
  have hfire : d ≤ p.now + 1 := by omega
  simp [psStep, ht, hfire, fireKeepAlive, psSend, hconn, hclos,
    resetKeepAlive, hka]

/-- C8: if `keepAliveTimeoutMs` is below 1000, `resetKeepAlive` never arms the
timer and no keep-alive ping is ever sent on any run from an unarmed state; if
it is at least 1000, every successful send re-arms the single-shot timer for
the full timeout from the current time, no ping fires on a run in which an
ordinary send occurs before the armed due time, and a run that stays idle past
the due time fires exactly one ping carrying the due-time timestamp (none
further until a full timeout elapses again). -/
theorem keepAlive_spec :
    (∀ p : PeerState, p.keepAliveTimeoutMs < 1000 →
      (resetKeepAlive p).keepAliveTimer = none) ∧
    (∀ (p : PeerState) (evs : List PeerEvent), p.keepAliveTimeoutMs < 1000 →
      p.keepAliveTimer = none → (psRun p evs).pingsSent = p.pingsSent) ∧
    (∀ (p : PeerState) (data : JSVal) (cc : Bool) (stamp : Option Nat)
        (q : PeerState),
      1000 ≤ p.keepAliveTimeoutMs → p.isConnected = true → p.isClosing = false →
      psSend p data cc stamp = .ok q →
      q.keepAliveTimer = some (p.now + p.keepAliveTimeoutMs)) ∧
    (∀ (p : PeerState) (d k : Nat) (m : JSVal),
      p.keepAliveTimer = some d → p.now + k < d →
      (psRun p (List.replicate k .tick ++ [.appSend m])).pingsSent
        = p.pingsSent) ∧
    (∀ (p : PeerState) (d j : Nat),
      p.isConnected = true → p.isClosing = false →
      1000 ≤ p.keepAliveTimeoutMs → p.keepAliveTimer = some d → p.now < d →
      j < p.keepAliveTimeoutMs →
      (psRun p (List.replicate (d - p.now + j) .tick)).pingsSent
        = p.pingsSent ++ [d]) := by
  refine ⟨?_, ?_, ?_, ?_, ?_⟩
  · intro p hlow
    simp [resetKeepAlive, Nat.not_le.mpr hlow]
  · intro p evs hlow ht
    exact psRun_low evs p hlow ht
  · intro p data cc stamp q hka hconn hclos hsend
    have hc : (p.isConnected && !p.isClosing) = true := by simp [hconn, hclos]
    simp only [psSend, hc, if_true] at hsend
    cases hsend
    simp [resetKeepAlive, hka]
  · intro p d k m ht hk
    rw [psRun_append, psRun_ticks_noFire k p d ht hk]
    by_cases hc : (({ p with now := p.now + k } : PeerState).isConnected &&
        !({ p with now := p.now + k } : PeerState).isClosing) = true
    · simp [psRun, psStep, psSend, hc]
    · simp [psRun, psStep, psSend, hc]
  · intro p d j hconn hclos hka ht hlt hj
    obtain ⟨w, hw⟩ : ∃ w, d = p.now + w + 1 := ⟨d - p.now - 1, by omega⟩
    have hcount : d - p.now + j = w + (1 + j) := by omega
    rw [hcount, List.replicate_add, psRun_append]
    rw [psRun_ticks_noFire w p d ht (by omega)]
    have hfire := psStep_tick_fire { p with now := p.now + w } d
      (by simpa using ht) (by simp; omega) (by simpa using hconn)
      (by simpa using hclos) (by simpa using hka)
    rw [List.replicate_add, List.replicate_one, psRun_append]
    have hone : psRun { p with now := p.now + w } [PeerEvent.tick]
        = psStep { p with now := p.now + w } .tick := by
      simp [psRun]
    rw [hone, hfire]
    have hnow : p.now + w + 1 = d := by omega
    have hrest := psRun_ticks_noFire j
      { p with
        now := p.now + w + 1
        keepAliveTimer := some (p.now + w + 1 + p.keepAliveTimeoutMs)
        sent := p.sent ++ [pEncode [pingMsg (p.now + w + 1)]]
        sentMsgs := p.sentMsgs ++ [pingMsg (p.now + w + 1)]
        pingsSent := p.pingsSent ++ [p.now + w + 1] }
      (p.now + w + 1 + p.keepAliveTimeoutMs) (by simp) (by simp; omega)
    rw [hrest]
    simp [hnow]

/-- C8 witness: with a 999ms timeout no ping is ever recorded across ticks and
sends; a successful send on the live peer re-arms the timer for `now + 5000`;
with the timer armed for time 3, two ticks followed by a send leave no ping,
while four idle ticks record exactly the one ping stamped 3. -/
theorem keepAlive_spec_witness :
    (psRun lowTimeoutPeer
      [.tick, .appSend (.vstr "x"), .tick, .tick]).pingsSent = [] ∧
    (∃ q, psSend livePeer (.vstr "x") false none = .ok q ∧
      q.keepAliveTimer = some 5000) ∧
    (psRun armedPeer
      (List.replicate 2 .tick ++ [.appSend (.vstr "y")])).pingsSent = [] ∧
    (psRun armedPeer (List.replicate (3 - 0 + 1) .tick)).pingsSent = [3] := by
  refine ⟨?_, ?_, ?_, ?_⟩
  · exact keepAlive_spec.2.1 lowTimeoutPeer
      [.tick, .appSend (.vstr "x"), .tick, .tick] (by decide) rfl
  · refine ⟨_, rfl, ?_⟩
    exact keepAlive_spec.2.2.1 livePeer (.vstr "x") false none _
      (by decide) rfl rfl rfl
  · exact keepAlive_spec.2.2.2.1 armedPeer 3 2 (.vstr "y") rfl (by decide)
  · have := keepAlive_spec.2.2.2.2 armedPeer 3 1 rfl rfl (by decide) rfl
      (by decide) (by decide)
    simpa using this

/-! ## C2: framing round-trip -/

theorem digitsVal_append_one (ds : List Nat) (d : Nat) :
    digitsVal (ds ++ [d]) = 10 * digitsVal ds + d := by
  simp [digitsVal, List.foldl_append]

theorem natDecDigitsAux_nil (fuel : Nat) : natDecDigitsAux fuel 0 = [] := by
  cases fuel <;> rfl

theorem natDecDigitsAux_val : ∀ (fuel n : Nat), 0 < n → n ≤ fuel →
    digitsVal (natDecDigitsAux fuel n) = n
  | 0, _, hpos, hle => by omega
  | fuel + 1, 0, hpos, _ => by omega
  | fuel + 1, m + 1, _, hle => by
    show digitsVal (natDecDigitsAux fuel ((m + 1) / 10) ++ [(m + 1) % 10]) = m + 1
    rw [digitsVal_append_one]
    by_cases hdiv : (m + 1) / 10 = 0
    · rw [hdiv, natDecDigitsAux_nil]
      simp only [digitsVal, List.foldl_nil, Nat.mul_zero, Nat.zero_add]
      omega
    · rw [natDecDigitsAux_val fuel ((m + 1) / 10) (by omega) (by omega)]
      omega

theorem natDecDigitsAux_lt10 : ∀ (fuel n d : Nat),
    d ∈ natDecDigitsAux fuel n → d < 10
  | 0, _, _, h => by simp [natDecDigitsAux] at h
  | fuel + 1, 0, _, h => by simp [natDecDigitsAux] at h
  | fuel + 1, m + 1, d, h => by
    rw [show natDecDigitsAux (fuel + 1) (m + 1)
        = natDecDigitsAux fuel ((m + 1) / 10) ++ [(m + 1) % 10] from rfl] at h
    rcases List.mem_append.mp h with h1 | h1
    · exact natDecDigitsAux_lt10 fuel ((m + 1) / 10) d h1
    · simp only [List.mem_singleton] at h1
      omega

theorem natDecDigits_val (n : Nat) : digitsVal (natDecDigits n) = n := by
  by_cases h : n = 0
  · simp [natDecDigits, h, digitsVal]
  · simp only [natDecDigits, if_neg h]
    exact natDecDigitsAux_val n n (by omega) le_rfl

theorem natDecDigits_lt10 (n d : Nat) (h : d ∈ natDecDigits n) : d < 10 := by
  by_cases h0 : n = 0
  · simp [natDecDigits, h0] at h
    omega
  · simp only [natDecDigits, if_neg h0] at h
    exact natDecDigitsAux_lt10 n n d h

theorem jsCharNum_digitChar (d : Nat) (h : d < 10) :
    jsCharNum (Nat.digitChar d) = some d := by
  interval_cases d <;> decide

theorem digitChar_ne_nul (d : Nat) (h : d < 10) : Nat.digitChar d ≠ '\x00' := by
  interval_cases d <;> decide

theorem scanDigits_break : ∀ (ds : List Nat), (∀ d ∈ ds, d < 10) →
    ∀ (c : Char), jsCharNum c = none → ∀ (tl : List Char),
    scanDigits (ds.map Nat.digitChar ++ c :: tl) = (ds, true)
  | [], _, c, hc, tl => by simp [scanDigits, hc]
  | d :: ds, hlt, c, hc, tl => by
    have hd := jsCharNum_digitChar d (hlt d (by simp))
    have hrec := scanDigits_break ds (fun x hx => hlt x (by simp [hx])) c hc tl
    simp [scanDigits, hd, hrec]

theorem decodeLoop_nil (fuel : Nat) : decodeLoop fuel [] = [] := by
  cases fuel with
  | zero => rfl
  | succ f =>
    simp only [decodeLoop]
    rw [if_neg (by decide)]

theorem decodeLoop_frame (fuel : Nat) (s rest : List Char) :
    decodeLoop (fuel + 1) (frameOf s ++ rest) = s :: decodeLoop fuel rest := by
  have hshape : frameOf s ++ rest
      = frameMarker ++ (natDecChars s.length
          ++ ('~' :: 'm' :: '~' :: (s ++ rest))) := by
    simp [frameOf, frameMarker, List.append_assoc]
  have htake : (frameOf s ++ rest).take 3 = frameMarker := by
    rw [hshape]
    rfl
  have hdrop : (frameOf s ++ rest).drop 3
      = natDecChars s.length ++ ('~' :: 'm' :: '~' :: (s ++ rest)) := by
    rw [hshape]
    rfl
  have hscan : scanDigits (natDecChars s.length
      ++ ('~' :: 'm' :: '~' :: (s ++ rest)))
      = (natDecDigits s.length, true) :=
    scanDigits_break (natDecDigits s.length)
      (fun d hd => natDecDigits_lt10 s.length d hd) '~' (by decide)
      ('m' :: '~' :: (s ++ rest))
  have hafter : (natDecChars s.length
      ++ ('~' :: 'm' :: '~' :: (s ++ rest))).drop
        ((natDecDigits s.length).length + 3)
      = s ++ rest := by
    have hlen : (natDecDigits s.length).length = (natDecChars s.length).length := by
      simp [natDecChars]
    rw [hlen, List.drop_append]
    rfl
  rw [show decodeLoop (fuel + 1) (frameOf s ++ rest)
      = if (frameOf s ++ rest).take 3 = frameMarker then
          let rest' := (frameOf s ++ rest).drop 3
          let scanned := scanDigits rest'
          let n := digitsVal scanned.1
          let after := if scanned.2 then rest'.drop (scanned.1.length + 3)
            else rest'
          let msg := after.take n
          let data' := after.drop n
          if data' = [] then [msg] else msg :: decodeLoop fuel data'
        else [] from rfl]
  rw [if_pos htake]
  simp only [hdrop, hscan, natDecDigits_val, hafter, List.take_left,
    List.drop_left, if_true]
  by_cases hrest : rest = []
  · subst hrest
    simp [decodeLoop_nil]
  · rw [if_neg hrest]

theorem pEncode_cons (m : JSVal) (rest : List JSVal) :
    pEncode (m :: rest) = frameOf (encodeMsgStr m).data ++ pEncode rest := by
  simp [pEncode]

theorem pEncode_length_ge : ∀ (msgs : List JSVal),
    msgs.length ≤ (pEncode msgs).length
  | [] => by simp [pEncode]
  | m :: rest => by
    rw [pEncode_cons]
    have h1 := pEncode_length_ge rest
    have h2 : 3 ≤ (frameOf (encodeMsgStr m).data).length := by
      simp [frameOf, frameMarker]
    simp only [List.length_append, List.length_cons]
    omega

theorem decodeLoop_encode : ∀ (msgs : List JSVal) (fuel : Nat),
    msgs.length ≤ fuel →
    decodeLoop fuel (pEncode msgs) = msgs.map (fun m => (encodeMsgStr m).data)
  | [], fuel, _ => by
    simp only [pEncode, List.map_nil, List.flatten_nil]
    exact decodeLoop_nil fuel
  | m :: rest, fuel, hle => by
    obtain ⟨f, rfl⟩ : ∃ f, fuel = f + 1 := by
      cases fuel with
      | zero => simp at hle
      | succ f => exact ⟨f, rfl⟩
    rw [pEncode_cons, decodeLoop_frame,
      decodeLoop_encode rest f (by simpa using hle)]
    simp

theorem natDecChars_nulFree (n : Nat) :
    (natDecChars n).filter (fun c => c ≠ '\x00') = natDecChars n := by
  rw [List.filter_eq_self]
  intro c hc
  simp only [natDecChars, List.mem_map] at hc
  obtain ⟨d, hd, rfl⟩ := hc
  simpa using digitChar_ne_nul d (natDecDigits_lt10 n d hd)

theorem pEncode_nulFree : ∀ (msgs : List JSVal),
    (∀ m ∈ msgs, '\x00' ∉ (encodeMsgStr m).data) →
    (pEncode msgs).filter (fun c => c ≠ '\x00') = pEncode msgs
  | [], _ => by simp [pEncode]
  | m :: rest, h => by
    rw [pEncode_cons, List.filter_append, pEncode_nulFree rest
      (fun x hx => h x (by simp [hx]))]
    have hmsg : ((encodeMsgStr m).data).filter (fun c => c ≠ '\x00')
        = (encodeMsgStr m).data := by
      rw [List.filter_eq_self]
      intro c hc
      have := h m (by simp)
      simp only [decide_eq_true_eq, ne_eq]
      intro hcontra
      exact this (hcontra ▸ hc)
    have hframe : (frameOf (encodeMsgStr m).data).filter (fun c => c ≠ '\x00')
        = frameOf (encodeMsgStr m).data := by
      simp only [frameOf, List.filter_append, hmsg, natDecChars_nulFree]
      rfl
    rw [hframe]

/-- C2 (counterexample): the single-message sequence whose message is the
string "a NUL b" does not survive the encode/decode round trip: the decoder
strips NUL characters wholesale before parsing, so the decoded message is "ab",
not the original string (and not even of the original length). -/
theorem decode_encode_claim_counterexample :
    pDecode (pEncode [JSVal.vstr "a\x00b"]) ≠ ["a\x00b".data] ∧
    pDecode (pEncode [JSVal.vstr "a\x00b"]) = ["ab".data] := by
  constructor
  · decide
  · decide

/-- C2 (amended): decoding the encoding of any finite message sequence yields
the stringified form of each message, in order (the original text for string
messages, decimal text for numbers, tagged JSON for objects, the empty string
for null/undefined), provided no stringified message contains a NUL character;
in particular, for sequences of NUL-free strings the round trip is the
identity. -/
theorem decode_encode_stringified :
    (∀ msgs : List JSVal, (∀ m ∈ msgs, '\x00' ∉ (encodeMsgStr m).data) →
      pDecode (pEncode msgs) = msgs.map (fun m => (encodeMsgStr m).data)) ∧
    (∀ ss : List String, (∀ s ∈ ss, '\x00' ∉ s.data) →
      pDecode (pEncode (ss.map JSVal.vstr)) = ss.map String.data) := by
  have hmain : ∀ msgs : List JSVal,
      (∀ m ∈ msgs, '\x00' ∉ (encodeMsgStr m).data) →
      pDecode (pEncode msgs) = msgs.map (fun m => (encodeMsgStr m).data) := by
    intro msgs h
    unfold pDecode
    rw [pEncode_nulFree msgs h]
    exact decodeLoop_encode msgs _
      (Nat.le_succ_of_le (pEncode_length_ge msgs))
  refine ⟨hmain, ?_⟩
  intro ss h
  have := hmain (ss.map JSVal.vstr) ?_
  · rw [this, List.map_map]
    rfl
  · intro m hm
    obtain ⟨s, hs, rfl⟩ := List.mem_map.mp hm
    exact h s hs

/-- C2 witness: a concrete mixed sequence (two strings, one with an embedded
frame marker, a number, null, and an operation-request object) decodes to its
stringified messages, and a NUL-free string list round-trips identically. -/
theorem decode_encode_stringified_witness :
    pDecode (pEncode [JSVal.vstr "hi", JSVal.vstr "wo~m~rld", JSVal.vnum 42,
        JSVal.vnull, JSVal.vobj [("req", JSVal.vnum 1)]])
      = ["hi".data, "wo~m~rld".data, "42".data, "".data,
         "~j~\x7b\"req\":1\x7d".data] ∧
    pDecode (pEncode ([""].map JSVal.vstr ++ ["ok"].map JSVal.vstr))
      = ["".data, "ok".data] := by
  constructor
  · have := decode_encode_stringified.1
      [JSVal.vstr "hi", JSVal.vstr "wo~m~rld", JSVal.vnum 42,
       JSVal.vnull, JSVal.vobj [("req", JSVal.vnum 1)]] (by decide)
    rw [this]
    decide
  · have := decode_encode_stringified.2 ["", "ok"] (by decide)
    simpa using this

end PhotonModel
